import Mathlib

/-!
Shallow embedding of the `Sidecar` process-bridge class
(`electron/lib/sidecar.ts` in the capslap repository).

The bridge exchanges line-delimited JSON with a worker process.  We model:

* JSON values (`Json`, a mutual inductive so that equality and recursion are
  structural) together with `Json.stringify`, a model of the platform
  `JSON.stringify` restricted to the value forms the bridge can send;
* the parsed shape of an inbound line (`Msg`, with JavaScript truthiness of
  the `id` and `error` fields made explicit);
* the mutable state of a `Sidecar` instance: the `pending` correlation
  table, the `progressCallbacks` table, the write-serialization chain
  (`writeLock`) and the sequence of completed writes on the wire;
* the operations `call` / `writeWithLock` / the `rl.on('line')` dispatch
  handler, as a state-transition function emitting a list of observable
  `Effect`s (promise settlements, progress-callback invocations, log-only
  events).

Modelling conventions, stated once:

* `randomUUID()` is modelled as an injective fresh-identifier supply
  (`uuid`), driven by a counter threaded through the state; the source
  relies on the same uniqueness-by-construction property of version-4 UUIDs.
* A progress callback supplied by a caller is identified by an opaque
  token (`Nat`); whether invoking it raises is given by an oracle
  `thr : Nat → Msg → Bool` passed to the dispatcher, since the callback's
  body belongs to the caller, not to the bridge.
* The write chain executes strictly in FIFO order in the source (each write
  is chained on the previous one's promise); we model the chain's effect on
  a request synchronously inside `call`, which is observation-equivalent
  because the worker cannot answer a request before its line is written.
  The 5 ms flush delay after a successful write is purely temporal and has
  no modelled effect.
* Each successful `proc.stdin.write` appends its complete data string as
  one atomic element of `wire`; the source likewise hands the whole line to
  a single `write` call.
-/

mutual

inductive Json where
  | null : Json
  | bool : Bool → Json
  | num : Int → Json
  | str : String → Json
  | arr : JsonList → Json
  | obj : JsonFields → Json
deriving DecidableEq

inductive JsonList where
  | nil : JsonList
  | cons : Json → JsonList → JsonList
deriving DecidableEq

inductive JsonFields where
  | nil : JsonFields
  | cons : String → Json → JsonFields → JsonFields
deriving DecidableEq

end

/-- One decimal digit character. -/
def digitChar (n : Nat) : Char :=
  match n with
  | 0 => '0' | 1 => '1' | 2 => '2' | 3 => '3' | 4 => '4'
  | 5 => '5' | 6 => '6' | 7 => '7' | 8 => '8' | _ => '9'

/-- Decimal digits of `n` (fuel-driven; `natRepr` supplies enough fuel). -/
def natReprAux : Nat → Nat → List Char
  | 0, _ => []
  | fuel + 1, n => if n < 10 then [digitChar n] else natReprAux fuel (n / 10) ++ [digitChar (n % 10)]

/-- Decimal rendering of a natural number (model of the platform's number printing). -/
def natRepr (n : Nat) : String := ⟨natReprAux (n + 1) n⟩

/-- Decimal rendering of an integer. -/
def intRepr : Int → String
  | .ofNat m => natRepr m
  | .negSucc m => "-" ++ natRepr (m + 1)

/-- One hexadecimal digit character. -/
def hexDigit (n : Nat) : Char :=
  match n with
  | 0 => '0' | 1 => '1' | 2 => '2' | 3 => '3' | 4 => '4'
  | 5 => '5' | 6 => '6' | 7 => '7' | 8 => '8' | 9 => '9'
  | 10 => 'a' | 11 => 'b' | 12 => 'c' | 13 => 'd' | 14 => 'e' | _ => 'f'

/-- JSON string escaping of one character, as `JSON.stringify` performs it. -/
def escapeChar (c : Char) : String :=
  if c == '"' then "\\\""
  else if c == '\\' then "\\\\"
  else if c == '\n' then "\\n"
  else if c == '\r' then "\\r"
  else if c == '\t' then "\\t"
  else if c == '\x08' then "\\b"
  else if c == '\x0c' then "\\f"
  else if c.toNat < 32 then "\\u00" ++ String.mk [hexDigit (c.toNat / 16), hexDigit (c.toNat % 16)]
  else String.mk [c]

/-- Concatenation of a list of strings. -/
def joinAll : List String → String
  | [] => ""
  | s :: rest => s ++ joinAll rest

/-- A JSON string literal: quotes around the escaped characters. -/
def escapeString (s : String) : String :=
  "\"" ++ joinAll (s.data.map escapeChar) ++ "\""

mutual

/-- Model of `JSON.stringify` on the value forms the bridge serializes. -/
def Json.stringify : Json → String
  | .null => "null"
  | .bool true => "true"
  | .bool false => "false"
  | .num n => intRepr n
  | .str s => escapeString s
  | .arr xs => "[" ++ xs.render ++ "]"
  | .obj fs => "\x7b" ++ fs.render ++ "\x7d"

/-- Comma-separated rendering of array elements. -/
def JsonList.render : JsonList → String
  | .nil => ""
  | .cons x .nil => x.stringify
  | .cons x tl => x.stringify ++ "," ++ tl.render

/-- Comma-separated rendering of object fields. -/
def JsonFields.render : JsonFields → String
  | .nil => ""
  | .cons k v .nil => escapeString k ++ ":" ++ v.stringify
  | .cons k v tl => escapeString k ++ ":" ++ v.stringify ++ "," ++ tl.render

end

/-- `pat.isPrefixOf hay` on character lists. -/
def listPrefix : List Char → List Char → Bool
  | [], _ => true
  | _ :: _, [] => false
  | a :: as, b :: bs => a == b && listPrefix as bs

/-- Substring test: JavaScript `hay.includes(pat)`. -/
def listIncl (pat : List Char) : List Char → Bool
  | [] => listPrefix pat []
  | c :: rest => listPrefix pat (c :: rest) || listIncl pat rest

/-- JavaScript `s.includes(pat)`. -/
def includes (s pat : String) : Bool := listIncl pat.data s.data

/-- A JavaScript `Error` as the bridge builds it: a `name` used as the stable
error kind and a human-readable `message`. -/
structure FriendlyError where
  name : String
  message : String
deriving DecidableEq

/-- `Sidecar.createFriendlyError`: classify the worker's free-form error
string by substring matching, first matching branch winning. -/
def createFriendlyError (errorMessage : String) : FriendlyError :=
  if includes errorMessage "API key not provided" || includes errorMessage "You didn\x27t provide an API key" then
    ⟨"API_KEY_MISSING", "OpenAI API key is not configured. Add it in settings for better transcription quality."⟩
  else if includes errorMessage "401 Unauthorized" || includes errorMessage "Unauthorized" then
    ⟨"API_KEY_INVALID", "Invalid OpenAI API key. Please check the key in settings."⟩
  else if includes errorMessage "No whisper models found" || includes errorMessage "No local whisper models available" then
    ⟨"NO_LOCAL_MODELS", "Local models not found. Using online transcription via OpenAI API."⟩
  else if includes errorMessage "whisper.cpp binary not found" || includes errorMessage "FFmpeg not found" then
    ⟨"BINARY_NOT_FOUND", "System components not found. Try reinstalling the application."⟩
  else if includes errorMessage "Network" || includes errorMessage "fetch" || includes errorMessage "ENOTFOUND" then
    ⟨"NETWORK_ERROR", "Internet connection problem. Check your connection and try again."⟩
  else if includes errorMessage "rate limit" || includes errorMessage "Too Many Requests" then
    ⟨"RATE_LIMIT", "OpenAI API rate limit exceeded. Try later or check your plan."⟩
  else if includes errorMessage "insufficient_quota" || includes errorMessage "quota" then
    ⟨"QUOTA_EXCEEDED", "OpenAI API quota exhausted. Top up your account or use local models."⟩
  else if includes errorMessage "file not found" || includes errorMessage "No such file" then
    ⟨"FILE_NOT_FOUND", "File not found. Make sure the video file exists and is accessible."⟩
  else if includes errorMessage "dyld: Library not loaded" || includes errorMessage "image not found" then
    ⟨"BINARY_DEP_MISSING", "Media tools are missing system libraries. Use static ffmpeg/ffprobe builds or reinstall."⟩
  else
    ⟨"UNKNOWN_ERROR", "An error occurred: " ++ errorMessage⟩

/-- The fields of a parsed inbound line that the dispatch handler consults.
`none` models an absent (`undefined`) field. -/
structure Msg where
  event : Option String
  id : Option String
  result : Option Json
  error : Option String
deriving DecidableEq

/-- JavaScript truthiness of a string-valued field: present and non-empty. -/
def truthy : Option String → Bool
  | some s => s ≠ ""
  | none => false

/-- One inbound line: either text `JSON.parse` rejects, or a parsed message. -/
inductive RawLine where
  | invalid : RawLine
  | parsed : Msg → RawLine
deriving DecidableEq

/-- Errors a write can fail with: the guard `!this.proc || !this.proc.stdin`,
or an error reported by `stdin.write` (an opaque token). -/
inductive WriteErr where
  | procUnavailable : WriteErr
  | streamError : Nat → WriteErr
deriving DecidableEq

/-- The state of `this.writeLock`: a resolved chain, or a chain holding a
rejection (every continuation chained on it is skipped and re-rejects). -/
inductive WriteChain where
  | ok : WriteChain
  | poisoned : WriteErr → WriteChain
deriving DecidableEq

/-- Observable events of one bridge transition. -/
inductive Effect where
  | requested : String → Effect
  | progressInvoked : String → Msg → Effect
  | handlerFault : String → Effect
  | resolvedWith : String → Json → Effect
  | rejectedWith : String → FriendlyError → Effect
  | writeRejected : String → WriteErr → Effect
  | parseFailure : Effect
deriving DecidableEq

/-- The mutable fields of a `Sidecar` instance.  `wire` records the data of
each completed `stdin.write`, in completion order. -/
structure Sidecar where
  nextId : Nat
  pending : List String
  progressCallbacks : List (String × Nat)
  writeLock : WriteChain
  wire : List String
deriving DecidableEq

/-- The fresh-identifier supply modelling `randomUUID()`: injective, and the
states only ever hold identifiers already drawn from it. -/
def uuid (k : Nat) : String := ⟨List.replicate (k + 1) '*'⟩

/-- State of a freshly constructed `Sidecar`. -/
def Sidecar.init : Sidecar := ⟨0, [], [], .ok, []⟩

/-- `Map.get` on the association list modelling `progressCallbacks`. -/
def lookupCb : List (String × Nat) → String → Option Nat
  | [], _ => none
  | p :: rest, i => if p.1 == i then some p.2 else lookupCb rest i

/-- The serialized form of one outbound request:
`JSON.stringify({ id, method, params }) + '\n'`. -/
def encodeRequest (id method : String) (params : Json) : String :=
  (Json.obj (.cons "id" (.str id) (.cons "method" (.str method)
    (.cons "params" params .nil)))).stringify ++ "\n"

/-- `Sidecar.writeWithLock`: chain a write on `writeLock`.  A chain holding a
rejection skips the queued continuation and re-rejects with the stored error;
an executed continuation first checks process availability, then attempts the
write, which either errors or appends `data` whole to the wire. -/
def Sidecar.writeWithLock (s : Sidecar) (data : String) (avail : Bool)
    (werr : Option Nat) : Sidecar × Option WriteErr :=
  match s.writeLock with
  | .poisoned e => (s, some e)
  | .ok =>
    if !avail then
      ({ s with writeLock := .poisoned .procUnavailable }, some WriteErr.procUnavailable)
    else
      match werr with
      | some n => ({ s with writeLock := .poisoned (.streamError n) }, some (WriteErr.streamError n))
      | none => ({ s with wire := s.wire ++ [data] }, none)

/-- `Sidecar.call`: draw a fresh identifier, register the progress callback
(when supplied) and the pending entry, serialize the request as one line and
put it on the write chain; when the write fails, delete both entries and
reject the request with the write error.  `avail`/`werr` are the
environment's behavior for this request's write. -/
def Sidecar.call (s : Sidecar) (method : String) (params : Json)
    (onProgress : Option Nat) (avail : Bool) (werr : Option Nat) :
    Sidecar × List Effect :=
  let id := uuid s.nextId
  let s1 : Sidecar := { s with nextId := s.nextId + 1 }
  let s2 : Sidecar :=
    match onProgress with
    | some cb => { s1 with progressCallbacks := (id, cb) :: s1.progressCallbacks }
    | none => s1
  let s3 : Sidecar := { s2 with pending := id :: s2.pending }
  match s3.writeWithLock (encodeRequest id method params) avail werr with
  | (s4, none) => (s4, [Effect.requested id])
  | (s4, some e) =>
    ({ s4 with pending := s4.pending.filter (fun x => x != id),
               progressCallbacks := s4.progressCallbacks.filter (fun p => p.1 != id) },
     [Effect.requested id, Effect.writeRejected id e])

/-- The body of the `rl.on('line')` handler after a successful `JSON.parse`:
progress branch first (callback invoked when registered, any exception it
raises is caught by the handler's `try`), then the result branch (resolve
when pending, always delete both entries), then the error branch (classify,
reject when pending, always delete both entries). -/
def dispatchMsg (thr : Nat → Msg → Bool) (s : Sidecar) (m : Msg) :
    Sidecar × List Effect :=
  if m.event == some "progress" && truthy m.id then
    match m.id with
    | some i =>
      match lookupCb s.progressCallbacks i with
      | some cb =>
        (s, if thr cb m then [Effect.progressInvoked i m, Effect.handlerFault i]
            else [Effect.progressInvoked i m])
      | none => (s, [])
    | none => (s, [])
  else if m.result.isSome && truthy m.id then
    match m.id, m.result with
    | some i, some v =>
      ({ s with pending := s.pending.filter (fun x => x != i),
                progressCallbacks := s.progressCallbacks.filter (fun p => p.1 != i) },
       if s.pending.contains i then [Effect.resolvedWith i v] else [])
    | _, _ => (s, [])
  else if truthy m.error && truthy m.id then
    match m.id, m.error with
    | some i, some e =>
      ({ s with pending := s.pending.filter (fun x => x != i),
                progressCallbacks := s.progressCallbacks.filter (fun p => p.1 != i) },
       if s.pending.contains i then [Effect.rejectedWith i (createFriendlyError e)] else [])
    | _, _ => (s, [])
  else (s, [])

/-- The whole `rl.on('line')` handler: a line `JSON.parse` rejects is logged
and dropped by the handler's `catch`; otherwise the parsed message is
dispatched. -/
def dispatchLine (thr : Nat → Msg → Bool) (s : Sidecar) :
    RawLine → Sidecar × List Effect
  | .invalid => (s, [Effect.parseFailure])
  | .parsed m => dispatchMsg thr s m

/-- One external stimulus: a caller invoking `call`, or one line arriving
from the worker's standard output. -/
inductive Op where
  | call : String → Json → Option Nat → Bool → Option Nat → Op
  | line : RawLine → Op
deriving DecidableEq

/-- The abstract error kinds of the spec's taxonomy (§7). -/
inductive SpecKind where
  | credentialsMissing : SpecKind
  | credentialsInvalid : SpecKind
  | localResourceMissing : SpecKind
  | dependencyMissing : SpecKind
  | networkFailure : SpecKind
  | rateLimited : SpecKind
  | quotaExhausted : SpecKind
  | inputNotFound : SpecKind
  | nativeDependencyMissing : SpecKind
  | unknown : SpecKind
deriving DecidableEq

/-- Modelled from the spec: the taxonomy table of §7, applied top to bottom
with the first matching row winning, with the two trigger strings the
counterexample forces corrected to the source's: CredentialsMissing's second
trigger is the full sentence starting with "You", and
NativeDependencyMissing's first trigger carries the "dyld: " prefix. -/
def specClassify (s : String) : SpecKind :=
  if includes s "API key not provided" || includes s "You didn\x27t provide an API key" then .credentialsMissing
  else if includes s "401 Unauthorized" || includes s "Unauthorized" then .credentialsInvalid
  else if includes s "No whisper models found" || includes s "No local whisper models available" then .localResourceMissing
  else if includes s "whisper.cpp binary not found" || includes s "FFmpeg not found" then .dependencyMissing
  else if includes s "Network" || includes s "fetch" || includes s "ENOTFOUND" then .networkFailure
  else if includes s "rate limit" || includes s "Too Many Requests" then .rateLimited
  else if includes s "insufficient_quota" || includes s "quota" then .quotaExhausted
  else if includes s "file not found" || includes s "No such file" then .inputNotFound
  else if includes s "dyld: Library not loaded" || includes s "image not found" then .nativeDependencyMissing
  else .unknown

/-- The stable kind name the implementation uses for each spec kind. -/
def SpecKind.codeName : SpecKind → String
  | .credentialsMissing => "API_KEY_MISSING"
  | .credentialsInvalid => "API_KEY_INVALID"
  | .localResourceMissing => "NO_LOCAL_MODELS"
  | .dependencyMissing => "BINARY_NOT_FOUND"
  | .networkFailure => "NETWORK_ERROR"
  | .rateLimited => "RATE_LIMIT"
  | .quotaExhausted => "QUOTA_EXCEEDED"
  | .inputNotFound => "FILE_NOT_FOUND"
  | .nativeDependencyMissing => "BINARY_DEP_MISSING"
  | .unknown => "UNKNOWN_ERROR"

/-- One bridge transition. -/
def step (thr : Nat → Msg → Bool) (s : Sidecar) : Op → Sidecar × List Effect
  | .call method params onProgress avail werr => s.call method params onProgress avail werr
  | .line raw => dispatchLine thr s raw

/-- Run a sequence of stimuli, concatenating the emitted effects. -/
def run (thr : Nat → Msg → Bool) (s : Sidecar) : List Op → Sidecar × List Effect
  | [] => (s, [])
  | op :: rest =>
    ((run thr (step thr s op).1 rest).1,
     (step thr s op).2 ++ (run thr (step thr s op).1 rest).2)

/-! ## Theorems about the classification (claim C4) -/

/-- C4 (amended): error classification is a deterministic total function of
the worker's error string, applying the taxonomy's trigger-substring rules
in the fixed table order with the first matching kind winning, where the
trigger strings are the source's: "You didn't provide an API key" (not the
bare "didn't provide an API key") and "dyld: Library not loaded" (not the
bare "Library not loaded"); an input matching no trigger yields Unknown
with the original text preserved in the message. -/
theorem classification_follows_corrected_table (s : String) :
    (createFriendlyError s).name = (specClassify s).codeName ∧
    (specClassify s = SpecKind.unknown →
      (createFriendlyError s).message = "An error occurred: " ++ s) := by
  unfold createFriendlyError specClassify
  by_cases h1 : (includes s "API key not provided" || includes s "You didn\x27t provide an API key") = true
  · simp [h1, SpecKind.codeName]
  by_cases h2 : (includes s "401 Unauthorized" || includes s "Unauthorized") = true
  · simp [h1, h2, SpecKind.codeName]
  by_cases h3 : (includes s "No whisper models found" || includes s "No local whisper models available") = true
  · simp [h1, h2, h3, SpecKind.codeName]
  by_cases h4 : (includes s "whisper.cpp binary not found" || includes s "FFmpeg not found") = true
  · simp [h1, h2, h3, h4, SpecKind.codeName]
  by_cases h5 : (includes s "Network" || includes s "fetch" || includes s "ENOTFOUND") = true
  · simp [h1, h2, h3, h4, h5, SpecKind.codeName]
  by_cases h6 : (includes s "rate limit" || includes s "Too Many Requests") = true
  · simp [h1, h2, h3, h4, h5, h6, SpecKind.codeName]
  by_cases h7 : (includes s "insufficient_quota" || includes s "quota") = true
  · simp [h1, h2, h3, h4, h5, h6, h7, SpecKind.codeName]
  by_cases h8 : (includes s "file not found" || includes s "No such file") = true
  · simp [h1, h2, h3, h4, h5, h6, h7, h8, SpecKind.codeName]
  by_cases h9 : (includes s "dyld: Library not loaded" || includes s "image not found") = true
  · simp [h1, h2, h3, h4, h5, h6, h7, h8, h9, SpecKind.codeName]
  · simp [h1, h2, h3, h4, h5, h6, h7, h8, h9, SpecKind.codeName]

/-- C4 (counterexample): the string "Library not loaded" contains the spec
table's NativeDependencyMissing trigger "Library not loaded" and no trigger
of any earlier spec row, yet the code classifies it UNKNOWN_ERROR, not
BINARY_DEP_MISSING; likewise "didn't provide an API key" contains the spec's
CredentialsMissing trigger yet classifies UNKNOWN_ERROR. -/
theorem classification_spec_table_counterexample :
    includes "Library not loaded" "Library not loaded" = true ∧
    includes "Library not loaded" "API key not provided" = false ∧
    includes "Library not loaded" "didn\x27t provide an API key" = false ∧
    includes "Library not loaded" "401 Unauthorized" = false ∧
    includes "Library not loaded" "Unauthorized" = false ∧
    includes "Library not loaded" "No whisper models found" = false ∧
    includes "Library not loaded" "No local whisper models available" = false ∧
    includes "Library not loaded" "whisper.cpp binary not found" = false ∧
    includes "Library not loaded" "FFmpeg not found" = false ∧
    includes "Library not loaded" "Network" = false ∧
    includes "Library not loaded" "fetch" = false ∧
    includes "Library not loaded" "ENOTFOUND" = false ∧
    includes "Library not loaded" "rate limit" = false ∧
    includes "Library not loaded" "Too Many Requests" = false ∧
    includes "Library not loaded" "insufficient_quota" = false ∧
    includes "Library not loaded" "quota" = false ∧
    includes "Library not loaded" "file not found" = false ∧
    includes "Library not loaded" "No such file" = false ∧
    (createFriendlyError "Library not loaded").name = "UNKNOWN_ERROR" ∧
    (createFriendlyError "Library not loaded").name ≠ "BINARY_DEP_MISSING" ∧
    includes "didn\x27t provide an API key" "didn\x27t provide an API key" = true ∧
    (createFriendlyError "didn\x27t provide an API key").name = "UNKNOWN_ERROR" ∧
    (createFriendlyError "didn\x27t provide an API key").name ≠ "API_KEY_MISSING" := by
  decide

/-- Witness for the amended C4 theorem at a concrete unrecognized input. -/
theorem classification_follows_corrected_table_witness :
    (createFriendlyError "mysterious failure").name = (specClassify "mysterious failure").codeName ∧
    (createFriendlyError "mysterious failure").message = "An error occurred: " ++ "mysterious failure" :=
  ⟨(classification_follows_corrected_table "mysterious failure").1,
   (classification_follows_corrected_table "mysterious failure").2 (by decide)⟩

/-! ## String-layer lemmas -/

theorem strData_append (s t : String) : (s ++ t).data = s.data ++ t.data := by
  cases s; cases t; rfl

/-- The string contains no newline character. -/
def nlFree (s : String) : Prop := '\n' ∉ s.data

instance (s : String) : Decidable (nlFree s) := by
  unfold nlFree; infer_instance

theorem nlFree_append {s t : String} (hs : nlFree s) (ht : nlFree t) :
    nlFree (s ++ t) := by
  simp only [nlFree, strData_append, List.mem_append] at *
  exact fun h => h.elim hs ht

theorem digitChar_ne_nl (n : Nat) : digitChar n ≠ '\n' := by
  unfold digitChar; split <;> decide

theorem hexDigit_ne_nl (n : Nat) : hexDigit n ≠ '\n' := by
  unfold hexDigit; split <;> decide

theorem natReprAux_nlFree (fuel n : Nat) : '\n' ∉ natReprAux fuel n := by
  induction fuel generalizing n with
  | zero => simp [natReprAux]
  | succ f ih =>
    unfold natReprAux
    split
    · intro h
      exact digitChar_ne_nl n (List.mem_singleton.mp h).symm
    · intro h
      rcases List.mem_append.mp h with h' | h'
      · exact ih _ h'
      · exact digitChar_ne_nl _ (List.mem_singleton.mp h').symm

theorem natRepr_nlFree (n : Nat) : nlFree (natRepr n) := natReprAux_nlFree _ _

theorem intRepr_nlFree (n : Int) : nlFree (intRepr n) := by
  cases n with
  | ofNat m => exact natRepr_nlFree m
  | negSucc m => exact nlFree_append (by decide) (natRepr_nlFree (m + 1))

theorem escapeChar_nlFree (c : Char) : nlFree (escapeChar c) := by
  unfold escapeChar
  repeat' split
  case isTrue => decide
  case isTrue => decide
  case isTrue => decide
  case isTrue => decide
  case isTrue => decide
  case isTrue => decide
  case isTrue => decide
  case isTrue =>
    refine nlFree_append (by decide) ?_
    intro h
    rcases List.mem_pair.mp h with h' | h'
    · exact hexDigit_ne_nl _ h'.symm
    · exact hexDigit_ne_nl _ h'.symm
  case isFalse h1 h2 h3 h4 h5 h6 h7 h8 =>
    intro h
    have : c = '\n' := (List.mem_singleton.mp h).symm
    subst this
    exact h3 rfl

theorem joinAll_nlFree {l : List String} (h : ∀ s ∈ l, nlFree s) :
    nlFree (joinAll l) := by
  induction l with
  | nil => simp [joinAll, nlFree]
  | cons a rest ih =>
    exact nlFree_append (h a (List.mem_cons_self a rest))
      (ih fun s hs => h s (List.mem_cons_of_mem a hs))

theorem escapeString_nlFree (s : String) : nlFree (escapeString s) := by
  refine nlFree_append (nlFree_append (by decide) ?_) (by decide)
  refine joinAll_nlFree ?_
  intro x hx
  rcases List.mem_map.mp hx with ⟨c, _, rfl⟩
  exact escapeChar_nlFree c

mutual

theorem Json.stringify_nlFree : (j : Json) → nlFree (Json.stringify j)
  | .null => by decide
  | .bool true => by decide
  | .bool false => by decide
  | .num n => by simpa [Json.stringify] using intRepr_nlFree n
  | .str s => by simpa [Json.stringify] using escapeString_nlFree s
  | .arr xs => by
    simpa [Json.stringify] using
      nlFree_append (nlFree_append (by decide) (jsonListRender_nlFree xs)) (by decide)
  | .obj fs => by
    simpa [Json.stringify] using
      nlFree_append (nlFree_append (by decide) (jsonFieldsRender_nlFree fs)) (by decide)

theorem jsonListRender_nlFree : (l : JsonList) → nlFree (JsonList.render l)
  | .nil => by simpa [JsonList.render] using (by decide : nlFree "")
  | .cons x .nil => by simpa [JsonList.render] using Json.stringify_nlFree x
  | .cons x (.cons y tl) => by
    simpa [JsonList.render] using
      nlFree_append (nlFree_append (Json.stringify_nlFree x) (by decide))
        (jsonListRender_nlFree (.cons y tl))

theorem jsonFieldsRender_nlFree : (fs : JsonFields) → nlFree (JsonFields.render fs)
  | .nil => by simpa [JsonFields.render] using (by decide : nlFree "")
  | .cons k v .nil => by
    simpa [JsonFields.render] using
      nlFree_append (nlFree_append (escapeString_nlFree k) (by decide))
        (Json.stringify_nlFree v)
  | .cons k v (.cons k' v' tl) => by
    simpa [JsonFields.render] using
      nlFree_append (nlFree_append (nlFree_append
        (nlFree_append (escapeString_nlFree k) (by decide)) (Json.stringify_nlFree v))
        (by decide)) (jsonFieldsRender_nlFree (.cons k' v' tl))

end

/-- A complete wire line: exactly one newline, and it is the final character. -/
def isOneLine (d : String) : Bool :=
  d.data.count '\n' == 1 && d.data.getLast? == some '\n'

theorem encodeRequest_isOneLine (id method : String) (params : Json) :
    isOneLine (encodeRequest id method params) = true := by
  have hb : '\n' ∉ (Json.stringify (Json.obj (.cons "id" (.str id)
      (.cons "method" (.str method) (.cons "params" params .nil))))).data :=
    Json.stringify_nlFree _
  unfold isOneLine encodeRequest
  rw [strData_append]
  have hdata : ("\n" : String).data = ['\n'] := rfl
  rw [hdata]
  simp [List.count_append, List.getLast?_concat, List.count_eq_zero.mpr hb]

theorem uuid_inj {a b : Nat} (h : uuid a = uuid b) : a = b := by
  have hd : List.replicate (a + 1) '*' = List.replicate (b + 1) '*' :=
    congrArg String.data h
  have := congrArg List.length hd
  simpa using this

/-- Identifiers already drawn from the supply before counter value `n`. -/
def genBy (n : Nat) (i : String) : Prop := ∃ k, k < n ∧ i = uuid k

theorem genBy_mono {n n' : Nat} (h : n ≤ n') {i : String} (hg : genBy n i) :
    genBy n' i := by
  rcases hg with ⟨k, hk, rfl⟩
  exact ⟨k, lt_of_lt_of_le hk h, rfl⟩

theorem genBy_ne_fresh {n : Nat} {i : String} (hg : genBy n i) : i ≠ uuid n := by
  rcases hg with ⟨k, hk, rfl⟩
  intro h
  exact absurd (uuid_inj h) (Nat.ne_of_lt hk)

/-! ## Claim-support definitions -/

/-- The effect is a terminal settlement of the request with identifier `i`. -/
def Effect.settles (i : String) : Effect → Bool
  | .resolvedWith j _ => j == i
  | .rejectedWith j _ => j == i
  | .writeRejected j _ => j == i
  | _ => false

/-- The effect is a progress-callback invocation for identifier `i`. -/
def Effect.progressOf (i : String) : Effect → Bool
  | .progressInvoked j _ => j == i
  | _ => false

/-- Number of terminal settlements of request `i` in an effect trace. -/
def settleCount (i : String) (l : List Effect) : Nat :=
  (l.filter (Effect.settles i)).length

/-- No progress-callback invocation for `i` occurs in the trace. -/
def progFree (i : String) (l : List Effect) : Bool :=
  l.all fun e => !e.progressOf i

/-- Every settlement of `i` in the trace is followed by no progress-callback
invocation for `i`. -/
def sepOk (i : String) : List Effect → Bool
  | [] => true
  | e :: rest => ((!e.settles i) || progFree i rest) && sepOk i rest

/-- The identifiers drawn by the `call` invocations of the trace, in order. -/
def reqIds (l : List Effect) : List String :=
  l.filterMap fun e => match e with
    | .requested i => some i
    | _ => none

/-- Whether a stimulus is a `call` invocation. -/
def Op.isCall : Op → Bool
  | .call _ _ _ _ _ => true
  | .line _ => false

/-! ## Association-list and filter lemmas -/

theorem mem_filter_ne {l : List String} {x i : String} :
    x ∈ l.filter (fun y => y != i) ↔ x ∈ l ∧ x ≠ i := by
  simp [List.mem_filter]

theorem lookupCb_filter_self (l : List (String × Nat)) (i : String) :
    lookupCb (l.filter (fun p => p.1 != i)) i = none := by
  induction l with
  | nil => rfl
  | cons p rest ih =>
    rw [List.filter_cons]
    by_cases h : (p.1 == i) = true
    · have hb : (p.1 != i) = false := by simp [bne, h]
      rw [hb]
      simpa using ih
    · have hb : (p.1 != i) = true := by simp [bne, h]
      rw [hb]
      simp only [if_pos]
      rw [lookupCb, if_neg h]
      exact ih

theorem lookupCb_none_filter {l : List (String × Nat)} {i : String}
    (h : lookupCb l i = none) (q : String × Nat → Bool) :
    lookupCb (l.filter q) i = none := by
  induction l with
  | nil => rfl
  | cons p rest ih =>
    rw [lookupCb] at h
    by_cases hp : (p.1 == i) = true
    · rw [if_pos hp] at h
      cases h
    · rw [if_neg hp] at h
      rw [List.filter_cons]
      by_cases hq : q p = true
      · rw [if_pos hq, lookupCb, if_neg hp]
        exact ih h
      · rw [if_neg hq]
        exact ih h

theorem lookupCb_mem {l : List (String × Nat)} {i : String} {cb : Nat}
    (h : lookupCb l i = some cb) : (i, cb) ∈ l := by
  induction l with
  | nil => cases h
  | cons p rest ih =>
    rw [lookupCb] at h
    by_cases hp : (p.1 == i) = true
    · rw [if_pos hp] at h
      have h1 : p.2 = cb := by cases h; rfl
      have h2 : p.1 = i := by simpa using hp
      have hpair : p = (i, cb) := by
        cases p
        simp only [Prod.mk.injEq]
        exact ⟨h2, h1⟩
      rw [← hpair]
      exact List.mem_cons_self p rest
    · rw [if_neg hp] at h
      exact List.mem_cons_of_mem p (ih h)

/-! ## Exhaustive outcome characterizations -/

/-- The possible outcomes of dispatching one parsed message: the progress
branch (state untouched, callback invoked, possibly raising), the result
branch, the error branch (each deleting both table entries for the message's
identifier and settling only a pending request), or no action. -/
theorem dispatchMsg_cases (thr : Nat → Msg → Bool) (s : Sidecar) (m : Msg) :
    ((dispatchMsg thr s m).1 = s ∧
      ∃ i cb, m.id = some i ∧ lookupCb s.progressCallbacks i = some cb ∧
        ((dispatchMsg thr s m).2 = [Effect.progressInvoked i m] ∨
         (dispatchMsg thr s m).2 = [Effect.progressInvoked i m, Effect.handlerFault i])) ∨
    (∃ i v, m.id = some i ∧ m.result = some v ∧
      (dispatchMsg thr s m).1 =
        { s with pending := s.pending.filter (fun x => x != i),
                 progressCallbacks := s.progressCallbacks.filter (fun p => p.1 != i) } ∧
      (dispatchMsg thr s m).2 =
        (if s.pending.contains i then [Effect.resolvedWith i v] else [])) ∨
    (∃ i e, m.id = some i ∧ m.error = some e ∧ m.result = none ∧
      (dispatchMsg thr s m).1 =
        { s with pending := s.pending.filter (fun x => x != i),
                 progressCallbacks := s.progressCallbacks.filter (fun p => p.1 != i) } ∧
      (dispatchMsg thr s m).2 =
        (if s.pending.contains i then [Effect.rejectedWith i (createFriendlyError e)] else [])) ∨
    ((dispatchMsg thr s m).1 = s ∧ (dispatchMsg thr s m).2 = []) := by
  by_cases h1 : (m.event == some "progress" && truthy m.id) = true
  · obtain ⟨i, hi⟩ : ∃ i, m.id = some i := by
      have h1' := (Bool.and_eq_true _ _).mp h1 |>.2
      cases hmid : m.id with
      | none => rw [hmid] at h1'; simp [truthy] at h1'
      | some j => exact ⟨j, rfl⟩
    cases hcb : lookupCb s.progressCallbacks i with
    | some cb =>
      have hd : dispatchMsg thr s m =
          (s, if thr cb m then [Effect.progressInvoked i m, Effect.handlerFault i]
              else [Effect.progressInvoked i m]) := by
        unfold dispatchMsg
        rw [if_pos h1, hi]
        dsimp only
        rw [hcb]
      left
      refine ⟨by rw [hd], i, cb, hi, hcb, ?_⟩
      by_cases ht : thr cb m = true
      · right; rw [hd, if_pos ht]
      · left; rw [hd, if_neg ht]
    | none =>
      have hd : dispatchMsg thr s m = (s, []) := by
        unfold dispatchMsg
        rw [if_pos h1, hi]
        dsimp only
        rw [hcb]
      right; right; right
      exact ⟨by rw [hd], by rw [hd]⟩
  · by_cases h2 : (m.result.isSome && truthy m.id) = true
    · obtain ⟨i, hi⟩ : ∃ i, m.id = some i := by
        have h2' := (Bool.and_eq_true _ _).mp h2 |>.2
        cases hmid : m.id with
        | none => rw [hmid] at h2'; simp [truthy] at h2'
        | some j => exact ⟨j, rfl⟩
      obtain ⟨v, hv⟩ : ∃ v, m.result = some v := by
        have h2' := (Bool.and_eq_true _ _).mp h2 |>.1
        cases hres : m.result with
        | none => rw [hres] at h2'; simp at h2'
        | some v => exact ⟨v, rfl⟩
      have hd : dispatchMsg thr s m =
          ({ s with pending := s.pending.filter (fun x => x != i),
                    progressCallbacks := s.progressCallbacks.filter (fun p => p.1 != i) },
           if s.pending.contains i then [Effect.resolvedWith i v] else []) := by
        unfold dispatchMsg
        rw [if_neg h1, if_pos h2, hi, hv]
      right; left
      exact ⟨i, v, hi, hv, by rw [hd], by rw [hd]⟩
    · by_cases h3 : (truthy m.error && truthy m.id) = true
      · obtain ⟨i, hi⟩ : ∃ i, m.id = some i := by
          have h3' := (Bool.and_eq_true _ _).mp h3 |>.2
          cases hmid : m.id with
          | none => rw [hmid] at h3'; simp [truthy] at h3'
          | some j => exact ⟨j, rfl⟩
        obtain ⟨e, he⟩ : ∃ e, m.error = some e := by
          have h3' := (Bool.and_eq_true _ _).mp h3 |>.1
          cases herr : m.error with
          | none => rw [herr] at h3'; simp [truthy] at h3'
          | some e => exact ⟨e, rfl⟩
        have hres : m.result = none := by
          have h1' := (Bool.and_eq_true _ _).mp h3 |>.2
          cases hr : m.result with
          | none => rfl
          | some v =>
            exfalso
            apply h2
            rw [hr]
            simpa using h1'
        have hd : dispatchMsg thr s m =
            ({ s with pending := s.pending.filter (fun x => x != i),
                      progressCallbacks := s.progressCallbacks.filter (fun p => p.1 != i) },
             if s.pending.contains i then [Effect.rejectedWith i (createFriendlyError e)] else []) := by
          unfold dispatchMsg
          rw [if_neg h1, if_neg h2, if_pos h3, hi, he]
        right; right; left
        exact ⟨i, e, hi, he, hres, by rw [hd], by rw [hd]⟩
      · have hd : dispatchMsg thr s m = (s, []) := by
          unfold dispatchMsg
          rw [if_neg h1, if_neg h2, if_neg h3]
        right; right; right
        exact ⟨by rw [hd], by rw [hd]⟩

/-- Outcomes of one `call`: either the chain is clean and the write
succeeds — the request's line is appended whole to the wire — or the write
fails with some error `e` (chain already holding a rejection, process gone,
or stream error), the chain is left holding `e`, both freshly created table
entries are deleted again, and the request is rejected with `e`. -/
theorem call_cases (s : Sidecar) (me : String) (pa : Json) (op : Option Nat)
    (av : Bool) (we : Option Nat) :
    (s.writeLock = WriteChain.ok ∧
     s.call me pa op av we =
       ({ s with nextId := s.nextId + 1,
                 pending := uuid s.nextId :: s.pending,
                 progressCallbacks := (match op with
                   | some cb => (uuid s.nextId, cb) :: s.progressCallbacks
                   | none => s.progressCallbacks),
                 wire := s.wire ++ [encodeRequest (uuid s.nextId) me pa] },
        [Effect.requested (uuid s.nextId)])) ∨
    (∃ e, s.call me pa op av we =
       ({ s with nextId := s.nextId + 1,
                 pending := (uuid s.nextId :: s.pending).filter (fun x => x != uuid s.nextId),
                 progressCallbacks := ((match op with
                   | some cb => (uuid s.nextId, cb) :: s.progressCallbacks
                   | none => s.progressCallbacks)).filter (fun p => p.1 != uuid s.nextId),
                 writeLock := WriteChain.poisoned e },
        [Effect.requested (uuid s.nextId), Effect.writeRejected (uuid s.nextId) e])) := by
  cases hck : s.writeLock with
  | poisoned e =>
    right
    refine ⟨e, ?_⟩
    cases op <;> simp [Sidecar.call, Sidecar.writeWithLock, hck]
  | ok =>
    cases av with
    | false =>
      right
      refine ⟨WriteErr.procUnavailable, ?_⟩
      cases op <;> cases we <;> simp [Sidecar.call, Sidecar.writeWithLock, hck]
    | true =>
      cases we with
      | some n =>
        right
        refine ⟨WriteErr.streamError n, ?_⟩
        cases op <;> simp [Sidecar.call, Sidecar.writeWithLock, hck]
      | none =>
        left
        refine ⟨rfl, ?_⟩
        cases op <;> simp [Sidecar.call, Sidecar.writeWithLock, hck]

/-! ## Per-step lemmas -/

theorem contains_iff {l : List String} {i : String} :
    l.contains i = true ↔ i ∈ l := by
  simp [List.contains]

theorem dispatchMsg_preserves (thr : Nat → Msg → Bool) (s : Sidecar) (m : Msg) :
    (dispatchMsg thr s m).1.nextId = s.nextId ∧
    (dispatchMsg thr s m).1.writeLock = s.writeLock ∧
    (dispatchMsg thr s m).1.wire = s.wire := by
  rcases dispatchMsg_cases thr s m with ⟨hs, -⟩ | ⟨i, v, -, -, hs, -⟩ | ⟨i, e, -, -, -, hs, -⟩ | ⟨hs, -⟩ <;>
    rw [hs] <;> exact ⟨rfl, rfl, rfl⟩

theorem step_pendingGen (thr : Nat → Msg → Bool) (s : Sidecar) (op : Op)
    (h : ∀ i ∈ s.pending, genBy s.nextId i) :
    ∀ i ∈ (step thr s op).1.pending, genBy (step thr s op).1.nextId i := by
  cases op with
  | line raw =>
    cases raw with
    | invalid => exact h
    | parsed m =>
      show ∀ i ∈ (dispatchMsg thr s m).1.pending, genBy (dispatchMsg thr s m).1.nextId i
      rcases dispatchMsg_cases thr s m with ⟨hs, -⟩ | ⟨j, v, -, -, hs, -⟩ | ⟨j, e, -, -, -, hs, -⟩ | ⟨hs, -⟩ <;> rw [hs]
      · exact h
      · intro i hi
        exact h i (mem_filter_ne.mp hi).1
      · intro i hi
        exact h i (mem_filter_ne.mp hi).1
      · exact h
  | call me pa o av we =>
    show ∀ i ∈ (s.call me pa o av we).1.pending, genBy (s.call me pa o av we).1.nextId i
    rcases call_cases s me pa o av we with ⟨-, hc⟩ | ⟨e, hc⟩ <;> rw [hc] <;> intro i hi
    · rcases List.mem_cons.mp hi with rfl | hi'
      · exact ⟨s.nextId, Nat.lt_succ_self _, rfl⟩
      · exact genBy_mono (Nat.le_succ _) (h i hi')
    · rcases List.mem_cons.mp (mem_filter_ne.mp hi).1 with rfl | hi'
      · exact ⟨s.nextId, Nat.lt_succ_self _, rfl⟩
      · exact genBy_mono (Nat.le_succ _) (h i hi')

theorem step_nextId_mono (thr : Nat → Msg → Bool) (s : Sidecar) (op : Op) :
    s.nextId ≤ (step thr s op).1.nextId := by
  cases op with
  | line raw =>
    cases raw with
    | invalid => exact Nat.le_refl _
    | parsed m =>
      have := (dispatchMsg_preserves thr s m).1
      show s.nextId ≤ (dispatchMsg thr s m).1.nextId
      omega
  | call me pa o av we =>
    show s.nextId ≤ (s.call me pa o av we).1.nextId
    rcases call_cases s me pa o av we with ⟨-, hc⟩ | ⟨e, hc⟩ <;> rw [hc] <;> exact Nat.le_succ _

theorem step_cbsSub (thr : Nat → Msg → Bool) (s : Sidecar) (op : Op)
    (h : ∀ p ∈ s.progressCallbacks, p.1 ∈ s.pending) :
    ∀ p ∈ (step thr s op).1.progressCallbacks, p.1 ∈ (step thr s op).1.pending := by
  cases op with
  | line raw =>
    cases raw with
    | invalid => exact h
    | parsed m =>
      show ∀ p ∈ (dispatchMsg thr s m).1.progressCallbacks, p.1 ∈ (dispatchMsg thr s m).1.pending
      rcases dispatchMsg_cases thr s m with ⟨hs, -⟩ | ⟨j, v, -, -, hs, -⟩ | ⟨j, e, -, -, -, hs, -⟩ | ⟨hs, -⟩ <;> rw [hs]
      · exact h
      · intro p hp
        have hp' := List.mem_filter.mp hp
        refine mem_filter_ne.mpr ⟨h p hp'.1, ?_⟩
        simpa using hp'.2
      · intro p hp
        have hp' := List.mem_filter.mp hp
        refine mem_filter_ne.mpr ⟨h p hp'.1, ?_⟩
        simpa using hp'.2
      · exact h
  | call me pa o av we =>
    show ∀ p ∈ (s.call me pa o av we).1.progressCallbacks, p.1 ∈ (s.call me pa o av we).1.pending
    rcases call_cases s me pa o av we with ⟨-, hc⟩ | ⟨e, hc⟩ <;> rw [hc] <;> intro p hp
    · cases o with
      | some cb =>
        rcases List.mem_cons.mp hp with rfl | hp'
        · exact List.mem_cons_self _ _
        · exact List.mem_cons_of_mem _ (h p hp')
      | none => exact List.mem_cons_of_mem _ (h p hp)
    · have hp' := List.mem_filter.mp hp
      have hne : p.1 ≠ uuid s.nextId := by simpa using hp'.2
      refine mem_filter_ne.mpr ⟨?_, hne⟩
      cases o with
      | some cb =>
        rcases List.mem_cons.mp hp'.1 with rfl | hp''
        · exact absurd rfl hne
        · exact List.mem_cons_of_mem _ (h p hp'')
      | none => exact List.mem_cons_of_mem _ (h p hp'.1)

theorem step_settles_dead (thr : Nat → Msg → Bool) (s : Sidecar) (op : Op)
    (hgen : ∀ i ∈ s.pending, genBy s.nextId i) {i : String}
    (hset : ∃ e ∈ (step thr s op).2, e.settles i = true) :
    i ∉ (step thr s op).1.pending ∧
    lookupCb (step thr s op).1.progressCallbacks i = none ∧
    genBy (step thr s op).1.nextId i := by
  rcases hset with ⟨e0, he0, hs0⟩
  cases op with
  | line raw =>
    cases raw with
    | invalid =>
      rcases List.mem_singleton.mp he0 with rfl
      simp [Effect.settles] at hs0
    | parsed m =>
      replace he0 : e0 ∈ (dispatchMsg thr s m).2 := he0
      show i ∉ (dispatchMsg thr s m).1.pending ∧
        lookupCb (dispatchMsg thr s m).1.progressCallbacks i = none ∧
        genBy (dispatchMsg thr s m).1.nextId i
      rcases dispatchMsg_cases thr s m with ⟨hs, j, cb, -, -, hl | hl⟩ |
        ⟨j, v, -, -, hs, hl⟩ | ⟨j, er, -, -, -, hs, hl⟩ | ⟨hs, hl⟩
      · rw [hl] at he0
        rcases List.mem_singleton.mp he0 with rfl
        simp [Effect.settles] at hs0
      · rw [hl] at he0
        rcases List.mem_cons.mp he0 with rfl | h'
        · simp [Effect.settles] at hs0
        · rcases List.mem_singleton.mp h' with rfl
          simp [Effect.settles] at hs0
      · rw [hl] at he0
        by_cases hc : s.pending.contains j = true
        · rw [if_pos hc] at he0
          rcases List.mem_singleton.mp he0 with rfl
          have hji : j = i := by simpa [Effect.settles] using hs0
          subst hji
          rw [hs]
          refine ⟨?_, lookupCb_filter_self _ _, ?_⟩
          · intro hmem
            exact absurd rfl (mem_filter_ne.mp hmem).2
          · have := hgen j (contains_iff.mp hc)
            simpa using this
        · rw [if_neg hc] at he0
          cases he0
      · rw [hl] at he0
        by_cases hc : s.pending.contains j = true
        · rw [if_pos hc] at he0
          rcases List.mem_singleton.mp he0 with rfl
          have hji : j = i := by simpa [Effect.settles] using hs0
          subst hji
          rw [hs]
          refine ⟨?_, lookupCb_filter_self _ _, ?_⟩
          · intro hmem
            exact absurd rfl (mem_filter_ne.mp hmem).2
          · have := hgen j (contains_iff.mp hc)
            simpa using this
        · rw [if_neg hc] at he0
          cases he0
      · rw [hl] at he0
        cases he0
  | call me pa o av we =>
    replace he0 : e0 ∈ (s.call me pa o av we).2 := he0
    show i ∉ (s.call me pa o av we).1.pending ∧
      lookupCb (s.call me pa o av we).1.progressCallbacks i = none ∧
      genBy (s.call me pa o av we).1.nextId i
    rcases call_cases s me pa o av we with ⟨-, hc⟩ | ⟨e, hc⟩ <;> rw [hc] at he0 ⊢
    · rcases List.mem_singleton.mp he0 with rfl
      simp [Effect.settles] at hs0
    · rcases List.mem_cons.mp he0 with rfl | h'
      · simp [Effect.settles] at hs0
      · rcases List.mem_singleton.mp h' with rfl
        have hji : uuid s.nextId = i := by simpa [Effect.settles] using hs0
        subst hji
        refine ⟨?_, lookupCb_filter_self _ _, ⟨s.nextId, Nat.lt_succ_self _, rfl⟩⟩
        intro hmem
        exact absurd rfl (mem_filter_ne.mp hmem).2

theorem step_deadP (thr : Nat → Msg → Bool) (s : Sidecar) (op : Op) {i : String}
    (hni : i ∉ s.pending) (hg : genBy s.nextId i) :
    i ∉ (step thr s op).1.pending := by
  cases op with
  | line raw =>
    cases raw with
    | invalid => exact hni
    | parsed m =>
      show i ∉ (dispatchMsg thr s m).1.pending
      rcases dispatchMsg_cases thr s m with ⟨hs, -⟩ | ⟨j, v, -, -, hs, -⟩ | ⟨j, e, -, -, -, hs, -⟩ | ⟨hs, -⟩ <;> rw [hs]
      · exact hni
      · exact fun hmem => hni (mem_filter_ne.mp hmem).1
      · exact fun hmem => hni (mem_filter_ne.mp hmem).1
      · exact hni
  | call me pa o av we =>
    show i ∉ (s.call me pa o av we).1.pending
    rcases call_cases s me pa o av we with ⟨-, hc⟩ | ⟨e, hc⟩ <;> rw [hc]
    · intro hmem
      rcases List.mem_cons.mp hmem with rfl | h'
      · exact genBy_ne_fresh hg rfl
      · exact hni h'
    · intro hmem
      rcases List.mem_cons.mp (mem_filter_ne.mp hmem).1 with rfl | h'
      · exact genBy_ne_fresh hg rfl
      · exact hni h'

theorem step_deadC (thr : Nat → Msg → Bool) (s : Sidecar) (op : Op) {i : String}
    (hni : lookupCb s.progressCallbacks i = none) (hg : genBy s.nextId i) :
    lookupCb (step thr s op).1.progressCallbacks i = none := by
  cases op with
  | line raw =>
    cases raw with
    | invalid => exact hni
    | parsed m =>
      show lookupCb (dispatchMsg thr s m).1.progressCallbacks i = none
      rcases dispatchMsg_cases thr s m with ⟨hs, -⟩ | ⟨j, v, -, -, hs, -⟩ | ⟨j, e, -, -, -, hs, -⟩ | ⟨hs, -⟩ <;> rw [hs]
      · exact hni
      · exact lookupCb_none_filter hni _
      · exact lookupCb_none_filter hni _
      · exact hni
  | call me pa o av we =>
    show lookupCb (s.call me pa o av we).1.progressCallbacks i = none
    have hfresh : (uuid s.nextId == i) = false := by
      simp only [beq_eq_false_iff_ne, ne_eq]
      intro h
      exact genBy_ne_fresh hg h.symm
    rcases call_cases s me pa o av we with ⟨-, hc⟩ | ⟨e, hc⟩ <;> rw [hc]
    · cases o with
      | some cb =>
        rw [lookupCb]
        simpa [hfresh] using hni
      | none => exact hni
    · refine lookupCb_none_filter ?_ _
      cases o with
      | some cb =>
        rw [lookupCb]
        simpa [hfresh] using hni
      | none => exact hni

theorem step_dead_no_settle (thr : Nat → Msg → Bool) (s : Sidecar) (op : Op) {i : String}
    (hni : i ∉ s.pending) (hg : genBy s.nextId i) :
    ∀ e ∈ (step thr s op).2, e.settles i = false := by
  intro e0 he0
  cases op with
  | line raw =>
    cases raw with
    | invalid =>
      rcases List.mem_singleton.mp he0 with rfl
      simp [Effect.settles]
    | parsed m =>
      replace he0 : e0 ∈ (dispatchMsg thr s m).2 := he0
      rcases dispatchMsg_cases thr s m with ⟨-, j, cb, -, -, hl | hl⟩ |
        ⟨j, v, -, -, -, hl⟩ | ⟨j, er, -, -, -, -, hl⟩ | ⟨-, hl⟩
      · rw [hl] at he0
        rcases List.mem_singleton.mp he0 with rfl
        simp [Effect.settles]
      · rw [hl] at he0
        rcases List.mem_cons.mp he0 with rfl | h'
        · simp [Effect.settles]
        · rcases List.mem_singleton.mp h' with rfl
          simp [Effect.settles]
      · rw [hl] at he0
        by_cases hc : s.pending.contains j = true
        · rw [if_pos hc] at he0
          rcases List.mem_singleton.mp he0 with rfl
          have hji : j ≠ i := fun h => hni (h ▸ contains_iff.mp hc)
          simpa [Effect.settles] using hji
        · rw [if_neg hc] at he0
          cases he0
      · rw [hl] at he0
        by_cases hc : s.pending.contains j = true
        · rw [if_pos hc] at he0
          rcases List.mem_singleton.mp he0 with rfl
          have hji : j ≠ i := fun h => hni (h ▸ contains_iff.mp hc)
          simpa [Effect.settles] using hji
        · rw [if_neg hc] at he0
          cases he0
      · rw [hl] at he0
        cases he0
  | call me pa o av we =>
    replace he0 : e0 ∈ (s.call me pa o av we).2 := he0
    have hfresh : uuid s.nextId ≠ i := fun h => genBy_ne_fresh hg h.symm
    rcases call_cases s me pa o av we with ⟨-, hc⟩ | ⟨e, hc⟩ <;> rw [hc] at he0
    · rcases List.mem_singleton.mp he0 with rfl
      simp [Effect.settles]
    · rcases List.mem_cons.mp he0 with rfl | h'
      · simp [Effect.settles]
      · rcases List.mem_singleton.mp h' with rfl
        simpa [Effect.settles] using hfresh

theorem step_nocb_no_prog (thr : Nat → Msg → Bool) (s : Sidecar) (op : Op) {i : String}
    (hcb : lookupCb s.progressCallbacks i = none) :
    ∀ e ∈ (step thr s op).2, e.progressOf i = false := by
  intro e0 he0
  cases op with
  | line raw =>
    cases raw with
    | invalid =>
      rcases List.mem_singleton.mp he0 with rfl
      simp [Effect.progressOf]
    | parsed m =>
      replace he0 : e0 ∈ (dispatchMsg thr s m).2 := he0
      rcases dispatchMsg_cases thr s m with ⟨-, j, cb, -, hl0, hl | hl⟩ |
        ⟨j, v, -, -, -, hl⟩ | ⟨j, er, -, -, -, -, hl⟩ | ⟨-, hl⟩
      · rw [hl] at he0
        rcases List.mem_singleton.mp he0 with rfl
        have hji : j ≠ i := fun h => by rw [h] at hl0; rw [hl0] at hcb; cases hcb
        simpa [Effect.progressOf] using hji
      · rw [hl] at he0
        rcases List.mem_cons.mp he0 with rfl | h'
        · have hji : j ≠ i := fun h => by rw [h] at hl0; rw [hl0] at hcb; cases hcb
          simpa [Effect.progressOf] using hji
        · rcases List.mem_singleton.mp h' with rfl
          simp [Effect.progressOf]
      · rw [hl] at he0
        by_cases hc : s.pending.contains j = true
        · rw [if_pos hc] at he0
          rcases List.mem_singleton.mp he0 with rfl
          simp [Effect.progressOf]
        · rw [if_neg hc] at he0
          cases he0
      · rw [hl] at he0
        by_cases hc : s.pending.contains j = true
        · rw [if_pos hc] at he0
          rcases List.mem_singleton.mp he0 with rfl
          simp [Effect.progressOf]
        · rw [if_neg hc] at he0
          cases he0
      · rw [hl] at he0
        cases he0
  | call me pa o av we =>
    replace he0 : e0 ∈ (s.call me pa o av we).2 := he0
    rcases call_cases s me pa o av we with ⟨-, hc⟩ | ⟨e, hc⟩ <;> rw [hc] at he0
    · rcases List.mem_singleton.mp he0 with rfl
      simp [Effect.progressOf]
    · rcases List.mem_cons.mp he0 with rfl | h'
      · simp [Effect.progressOf]
      · rcases List.mem_singleton.mp h' with rfl
        simp [Effect.progressOf]

theorem settleCount_single_le (i : String) (e : Effect) : settleCount i [e] ≤ 1 := by
  unfold settleCount
  cases h : Effect.settles i e <;> simp [List.filter, h]

theorem settleCount_pair_le (i : String) (e1 e2 : Effect)
    (h1 : Effect.settles i e1 = false) : settleCount i [e1, e2] ≤ 1 := by
  unfold settleCount
  cases h2 : Effect.settles i e2 <;> simp [List.filter, h1, h2]

theorem settleCount_append (i : String) (a b : List Effect) :
    settleCount i (a ++ b) = settleCount i a + settleCount i b := by
  unfold settleCount
  rw [List.filter_append, List.length_append]

theorem sepOk_single (i : String) (e : Effect) : sepOk i [e] = true := by
  simp [sepOk, progFree]

theorem sepOk_pair (i : String) (e1 e2 : Effect)
    (h2 : Effect.progressOf i e2 = false) : sepOk i [e1, e2] = true := by
  simp [sepOk, progFree, h2]

theorem step_settleCount_le (thr : Nat → Msg → Bool) (s : Sidecar) (op : Op) (i : String) :
    settleCount i (step thr s op).2 ≤ 1 := by
  cases op with
  | line raw =>
    cases raw with
    | invalid => exact settleCount_single_le i _
    | parsed m =>
      show settleCount i (dispatchMsg thr s m).2 ≤ 1
      rcases dispatchMsg_cases thr s m with ⟨-, j, cb, -, -, hl | hl⟩ |
        ⟨j, v, -, -, -, hl⟩ | ⟨j, er, -, -, -, -, hl⟩ | ⟨-, hl⟩ <;> rw [hl]
      · exact settleCount_single_le i _
      · exact settleCount_pair_le i _ _ (by simp [Effect.settles])
      · split
        · exact settleCount_single_le i _
        · exact Nat.le_of_eq rfl |>.trans (Nat.zero_le 1) |>.trans (Nat.le_refl 1)
      · split
        · exact settleCount_single_le i _
        · exact Nat.zero_le 1
      · exact Nat.zero_le 1
  | call me pa o av we =>
    show settleCount i (s.call me pa o av we).2 ≤ 1
    rcases call_cases s me pa o av we with ⟨-, hc⟩ | ⟨e, hc⟩ <;> rw [hc]
    · exact settleCount_single_le i _
    · exact settleCount_pair_le i _ _ (by simp [Effect.settles])

theorem step_sepOk (thr : Nat → Msg → Bool) (s : Sidecar) (op : Op) (i : String) :
    sepOk i (step thr s op).2 = true := by
  cases op with
  | line raw =>
    cases raw with
    | invalid => exact sepOk_single i _
    | parsed m =>
      show sepOk i (dispatchMsg thr s m).2 = true
      rcases dispatchMsg_cases thr s m with ⟨-, j, cb, -, -, hl | hl⟩ |
        ⟨j, v, -, -, -, hl⟩ | ⟨j, er, -, -, -, -, hl⟩ | ⟨-, hl⟩ <;> rw [hl]
      · exact sepOk_single i _
      · exact sepOk_pair i _ _ (by simp [Effect.progressOf])
      · split
        · exact sepOk_single i _
        · rfl
      · split
        · exact sepOk_single i _
        · rfl
      · rfl
  | call me pa o av we =>
    show sepOk i (s.call me pa o av we).2 = true
    rcases call_cases s me pa o av we with ⟨-, hc⟩ | ⟨e, hc⟩ <;> rw [hc]
    · exact sepOk_single i _
    · exact sepOk_pair i _ _ (by simp [Effect.progressOf])

theorem step_wire_lines (thr : Nat → Msg → Bool) (s : Sidecar) (op : Op)
    (h : ∀ w ∈ s.wire, isOneLine w = true) :
    ∀ w ∈ (step thr s op).1.wire, isOneLine w = true := by
  cases op with
  | line raw =>
    cases raw with
    | invalid => exact h
    | parsed m =>
      show ∀ w ∈ (dispatchMsg thr s m).1.wire, isOneLine w = true
      rw [(dispatchMsg_preserves thr s m).2.2]
      exact h
  | call me pa o av we =>
    show ∀ w ∈ (s.call me pa o av we).1.wire, isOneLine w = true
    rcases call_cases s me pa o av we with ⟨-, hc⟩ | ⟨e, hc⟩ <;> rw [hc]
    · intro w hw
      rcases List.mem_append.mp hw with hw' | hw'
      · exact h w hw'
      · rcases List.mem_singleton.mp hw' with rfl
        exact encodeRequest_isOneLine _ _ _
    · exact h

theorem step_reqIds_call (thr : Nat → Msg → Bool) (s : Sidecar) (me : String)
    (pa : Json) (o : Option Nat) (av : Bool) (we : Option Nat) :
    reqIds (step thr s (Op.call me pa o av we)).2 = [uuid s.nextId] ∧
    (step thr s (Op.call me pa o av we)).1.nextId = s.nextId + 1 := by
  rcases call_cases s me pa o av we with ⟨-, hc⟩ | ⟨e, hc⟩ <;>
    exact ⟨by show reqIds (s.call me pa o av we).2 = _; rw [hc]; rfl,
           by show (s.call me pa o av we).1.nextId = _; rw [hc]⟩

theorem step_reqIds_line (thr : Nat → Msg → Bool) (s : Sidecar) (raw : RawLine) :
    reqIds (step thr s (Op.line raw)).2 = [] ∧
    (step thr s (Op.line raw)).1.nextId = s.nextId := by
  cases raw with
  | invalid => exact ⟨rfl, rfl⟩
  | parsed m =>
    refine ⟨?_, (dispatchMsg_preserves thr s m).1⟩
    show reqIds (dispatchMsg thr s m).2 = []
    rcases dispatchMsg_cases thr s m with ⟨-, j, cb, -, -, hl | hl⟩ |
      ⟨j, v, -, -, -, hl⟩ | ⟨j, er, -, -, -, -, hl⟩ | ⟨-, hl⟩ <;> rw [hl]
    · rfl
    · rfl
    · split <;> rfl
    · split <;> rfl
    · rfl

theorem step_resolved_src (thr : Nat → Msg → Bool) (s : Sidecar) (op : Op)
    {i : String} {v : Json}
    (h : Effect.resolvedWith i v ∈ (step thr s op).2) :
    ∃ m, op = Op.line (RawLine.parsed m) ∧ m.id = some i ∧ m.result = some v ∧
      i ∈ s.pending := by
  cases op with
  | line raw =>
    cases raw with
    | invalid =>
      cases List.mem_singleton.mp
        (show Effect.resolvedWith i v ∈ [Effect.parseFailure] from h)
    | parsed m =>
      replace h : Effect.resolvedWith i v ∈ (dispatchMsg thr s m).2 := h
      rcases dispatchMsg_cases thr s m with ⟨-, j, cb, -, -, hl | hl⟩ |
        ⟨j, v', hid, hres, -, hl⟩ | ⟨j, er, -, -, -, -, hl⟩ | ⟨-, hl⟩ <;> rw [hl] at h
      · simp at h
      · simp at h
      · by_cases hc : s.pending.contains j = true
        · rw [if_pos hc] at h
          have heq := List.mem_singleton.mp h
          injection heq with h1 h2
          subst h1; subst h2
          exact ⟨m, rfl, hid, hres, contains_iff.mp hc⟩
        · rw [if_neg hc] at h
          cases h
      · by_cases hc : s.pending.contains j = true
        · rw [if_pos hc] at h
          have heq := List.mem_singleton.mp h
          cases heq
        · rw [if_neg hc] at h
          cases h
      · cases h
  | call me pa o av we =>
    replace h : Effect.resolvedWith i v ∈ (s.call me pa o av we).2 := h
    rcases call_cases s me pa o av we with ⟨-, hc⟩ | ⟨e, hc⟩ <;> rw [hc] at h <;> simp at h

theorem step_rejected_src (thr : Nat → Msg → Bool) (s : Sidecar) (op : Op)
    {i : String} {fe : FriendlyError}
    (h : Effect.rejectedWith i fe ∈ (step thr s op).2) :
    ∃ m e, op = Op.line (RawLine.parsed m) ∧ m.id = some i ∧ m.error = some e ∧
      fe = createFriendlyError e ∧ i ∈ s.pending := by
  cases op with
  | line raw =>
    cases raw with
    | invalid =>
      cases List.mem_singleton.mp
        (show Effect.rejectedWith i fe ∈ [Effect.parseFailure] from h)
    | parsed m =>
      replace h : Effect.rejectedWith i fe ∈ (dispatchMsg thr s m).2 := h
      rcases dispatchMsg_cases thr s m with ⟨-, j, cb, -, -, hl | hl⟩ |
        ⟨j, v', -, -, -, hl⟩ | ⟨j, er, hid, herr, -, -, hl⟩ | ⟨-, hl⟩ <;> rw [hl] at h
      · simp at h
      · simp at h
      · by_cases hc : s.pending.contains j = true
        · rw [if_pos hc] at h
          have heq := List.mem_singleton.mp h
          cases heq
        · rw [if_neg hc] at h
          cases h
      · by_cases hc : s.pending.contains j = true
        · rw [if_pos hc] at h
          have heq := List.mem_singleton.mp h
          injection heq with h1 h2
          subst h1; subst h2
          exact ⟨m, er, rfl, hid, herr, rfl, contains_iff.mp hc⟩
        · rw [if_neg hc] at h
          cases h
      · cases h
  | call me pa o av we =>
    replace h : Effect.rejectedWith i fe ∈ (s.call me pa o av we).2 := h
    rcases call_cases s me pa o av we with ⟨-, hc⟩ | ⟨e, hc⟩ <;> rw [hc] at h <;> simp at h

/-! ## Trace-level lemmas -/

theorem settleCount_zero {i : String} {l : List Effect}
    (h : ∀ e ∈ l, Effect.settles i e = false) : settleCount i l = 0 := by
  induction l with
  | nil => rfl
  | cons e rest ih =>
    have he := h e (List.mem_cons_self e rest)
    have hr : ∀ x ∈ rest, Effect.settles i x = false :=
      fun x hx => h x (List.mem_cons_of_mem e hx)
    unfold settleCount
    rw [List.filter_cons, he]
    simpa [settleCount] using ih hr

theorem exists_settle_of_count {i : String} {l : List Effect}
    (h : settleCount i l ≠ 0) : ∃ e ∈ l, Effect.settles i e = true := by
  by_contra hc
  push_neg at hc
  exact h (settleCount_zero fun e he => by simpa using hc e he)

theorem progFree_of {i : String} {l : List Effect}
    (h : ∀ e ∈ l, Effect.progressOf i e = false) : progFree i l = true := by
  simp only [progFree, List.all_eq_true]
  intro e he
  simp [h e he]

theorem progFree_append {i : String} (a b : List Effect) :
    progFree i (a ++ b) = (progFree i a && progFree i b) := by
  simp [progFree, List.all_append]

theorem sepOk_append {i : String} {a b : List Effect}
    (ha : sepOk i a = true) (hb : sepOk i b = true)
    (hmix : ∀ e ∈ a, e.settles i = true → progFree i b = true) :
    sepOk i (a ++ b) = true := by
  induction a with
  | nil => simpa using hb
  | cons e rest ih =>
    rw [List.cons_append, sepOk]
    rw [sepOk] at ha
    obtain ⟨h1, h2⟩ := Bool.and_eq_true _ _ |>.mp ha
    have hrest : sepOk i (rest ++ b) = true :=
      ih h2 fun x hx hs => hmix x (List.mem_cons_of_mem e hx) hs
    rw [hrest, Bool.and_true]
    cases hes : e.settles i with
    | false => simp
    | true =>
      have hpr : progFree i rest = true := by
        rw [hes] at h1
        simpa using h1
      have hpb : progFree i b = true := hmix e (List.mem_cons_self e rest) hes
      simp [progFree_append, hpr, hpb]

theorem run_pendingGen (thr : Nat → Msg → Bool) (s : Sidecar) (ops : List Op)
    (h : ∀ j ∈ s.pending, genBy s.nextId j) :
    ∀ j ∈ (run thr s ops).1.pending, genBy (run thr s ops).1.nextId j := by
  induction ops generalizing s with
  | nil => exact h
  | cons op rest ih =>
    show ∀ j ∈ (run thr (step thr s op).1 rest).1.pending,
      genBy (run thr (step thr s op).1 rest).1.nextId j
    exact ih _ (step_pendingGen thr s op h)

theorem run_cbsSub (thr : Nat → Msg → Bool) (s : Sidecar) (ops : List Op)
    (h : ∀ p ∈ s.progressCallbacks, p.1 ∈ s.pending) :
    ∀ p ∈ (run thr s ops).1.progressCallbacks, p.1 ∈ (run thr s ops).1.pending := by
  induction ops generalizing s with
  | nil => exact h
  | cons op rest ih =>
    show ∀ p ∈ (run thr (step thr s op).1 rest).1.progressCallbacks,
      p.1 ∈ (run thr (step thr s op).1 rest).1.pending
    exact ih _ (step_cbsSub thr s op h)

theorem run_wire_lines (thr : Nat → Msg → Bool) (s : Sidecar) (ops : List Op)
    (h : ∀ w ∈ s.wire, isOneLine w = true) :
    ∀ w ∈ (run thr s ops).1.wire, isOneLine w = true := by
  induction ops generalizing s with
  | nil => exact h
  | cons op rest ih =>
    show ∀ w ∈ (run thr (step thr s op).1 rest).1.wire, isOneLine w = true
    exact ih _ (step_wire_lines thr s op h)

theorem run_dead_no_settle (thr : Nat → Msg → Bool) (s : Sidecar) (ops : List Op)
    {i : String} (hni : i ∉ s.pending) (hg : genBy s.nextId i) :
    settleCount i (run thr s ops).2 = 0 := by
  induction ops generalizing s with
  | nil => rfl
  | cons op rest ih =>
    show settleCount i ((step thr s op).2 ++ (run thr (step thr s op).1 rest).2) = 0
    rw [settleCount_append,
        settleCount_zero (step_dead_no_settle thr s op hni hg),
        ih _ (step_deadP thr s op hni hg) (genBy_mono (step_nextId_mono thr s op) hg)]

theorem run_settleCount_le (thr : Nat → Msg → Bool) (s : Sidecar) (ops : List Op)
    (i : String) (hgen : ∀ j ∈ s.pending, genBy s.nextId j) :
    settleCount i (run thr s ops).2 ≤ 1 := by
  induction ops generalizing s with
  | nil => exact Nat.zero_le 1
  | cons op rest ih =>
    show settleCount i ((step thr s op).2 ++ (run thr (step thr s op).1 rest).2) ≤ 1
    rw [settleCount_append]
    by_cases hzero : settleCount i (step thr s op).2 = 0
    · rw [hzero]
      simpa using ih _ (step_pendingGen thr s op hgen)
    · have h1 : settleCount i (step thr s op).2 ≤ 1 := step_settleCount_le thr s op i
      obtain ⟨hnp, -, hgi⟩ :=
        step_settles_dead thr s op hgen (exists_settle_of_count hzero)
      have hrest : settleCount i (run thr (step thr s op).1 rest).2 = 0 :=
        run_dead_no_settle thr _ rest hnp hgi
      omega

theorem run_noProg (thr : Nat → Msg → Bool) (s : Sidecar) (ops : List Op)
    {i : String} (hcb : lookupCb s.progressCallbacks i = none)
    (hg : genBy s.nextId i) :
    progFree i (run thr s ops).2 = true := by
  induction ops generalizing s with
  | nil => rfl
  | cons op rest ih =>
    show progFree i ((step thr s op).2 ++ (run thr (step thr s op).1 rest).2) = true
    rw [progFree_append,
        progFree_of (step_nocb_no_prog thr s op hcb),
        ih _ (step_deadC thr s op hcb hg) (genBy_mono (step_nextId_mono thr s op) hg)]
    rfl

theorem run_sepOk (thr : Nat → Msg → Bool) (s : Sidecar) (ops : List Op) (i : String)
    (hgen : ∀ j ∈ s.pending, genBy s.nextId j) :
    sepOk i (run thr s ops).2 = true := by
  induction ops generalizing s with
  | nil => rfl
  | cons op rest ih =>
    show sepOk i ((step thr s op).2 ++ (run thr (step thr s op).1 rest).2) = true
    refine sepOk_append (step_sepOk thr s op i) (ih _ (step_pendingGen thr s op hgen)) ?_
    intro e he hes
    obtain ⟨-, hncb, hgi⟩ := step_settles_dead thr s op hgen ⟨e, he, hes⟩
    exact run_noProg thr _ rest hncb hgi

/-- Number of `call` invocations in a stimulus sequence. -/
def numCalls (ops : List Op) : Nat := (ops.filter Op.isCall).length

theorem reqIds_append (a b : List Effect) :
    reqIds (a ++ b) = reqIds a ++ reqIds b := by
  simp [reqIds, List.filterMap_append]

theorem run_reqIds (thr : Nat → Msg → Bool) (s : Sidecar) (ops : List Op) :
    reqIds (run thr s ops).2 = List.map uuid (List.range' s.nextId (numCalls ops)) ∧
    (run thr s ops).1.nextId = s.nextId + numCalls ops := by
  induction ops generalizing s with
  | nil => exact ⟨rfl, rfl⟩
  | cons op rest ih =>
    have hshape : (run thr s (op :: rest)).2 =
        (step thr s op).2 ++ (run thr (step thr s op).1 rest).2 := rfl
    have hstate : (run thr s (op :: rest)).1 = (run thr (step thr s op).1 rest).1 := rfl
    obtain ⟨ih1, ih2⟩ := ih (step thr s op).1
    cases op with
    | call me pa o av we =>
      obtain ⟨h1, h2⟩ := step_reqIds_call thr s me pa o av we
      have hn : numCalls (Op.call me pa o av we :: rest) = numCalls rest + 1 := by
        simp [numCalls, List.filter_cons, Op.isCall]
      constructor
      · rw [hshape, reqIds_append, h1, ih1, h2, hn, List.range'_succ]
        rfl
      · rw [hstate, ih2, h2, hn]
        omega
    | line raw =>
      obtain ⟨h1, h2⟩ := step_reqIds_line thr s raw
      have hn : numCalls (Op.line raw :: rest) = numCalls rest := by
        simp [numCalls, List.filter_cons, Op.isCall]
      constructor
      · rw [hshape, reqIds_append, h1, ih1, h2, hn]
        rfl
      · rw [hstate, ih2, h2, hn]

theorem run_effect_src (thr : Nat → Msg → Bool) (s : Sidecar) (ops : List Op)
    {x : Effect} (h : x ∈ (run thr s ops).2) :
    ∃ s' op, op ∈ ops ∧ x ∈ (step thr s' op).2 := by
  induction ops generalizing s with
  | nil => cases h
  | cons op rest ih =>
    replace h : x ∈ (step thr s op).2 ++ (run thr (step thr s op).1 rest).2 := h
    rcases List.mem_append.mp h with h' | h'
    · exact ⟨s, op, List.mem_cons_self op rest, h'⟩
    · rcases ih _ h' with ⟨s', op', hop, hx⟩
      exact ⟨s', op', List.mem_cons_of_mem op hop, hx⟩

/-- The oracle for witnesses: no progress callback ever raises. -/
def thrNever : Nat → Msg → Bool := fun _ _ => false

/-- The oracle for witnesses: every progress callback raises. -/
def thrAlways : Nat → Msg → Bool := fun _ _ => true

/-! ## Claim theorems -/

/-- C1: over any sequence of concurrently issued calls and inbound lines
from a fresh bridge, each request settles at most once
(`settleCount _ ≤ 1` over the whole trace), and a settlement of request `i`
carries exactly the payload of an inbound result/error message whose `id`
field equals `i` — never a payload from a message with a different id. -/
theorem request_settles_once_from_own_message (thr : Nat → Msg → Bool)
    (ops : List Op) (i : String) :
    settleCount i (run thr Sidecar.init ops).2 ≤ 1 ∧
    (∀ v : Json, Effect.resolvedWith i v ∈ (run thr Sidecar.init ops).2 →
      ∃ m, Op.line (RawLine.parsed m) ∈ ops ∧ m.id = some i ∧ m.result = some v) ∧
    (∀ fe : FriendlyError, Effect.rejectedWith i fe ∈ (run thr Sidecar.init ops).2 →
      ∃ m e, Op.line (RawLine.parsed m) ∈ ops ∧ m.id = some i ∧ m.error = some e ∧
        fe = createFriendlyError e) := by
  refine ⟨run_settleCount_le thr Sidecar.init ops i (by intro j hj; cases hj), ?_, ?_⟩
  · intro v hv
    rcases run_effect_src thr Sidecar.init ops hv with ⟨s', op, hop, hx⟩
    rcases step_resolved_src thr s' op hx with ⟨m, rfl, hid, hres, -⟩
    exact ⟨m, hop, hid, hres⟩
  · intro fe hfe
    rcases run_effect_src thr Sidecar.init ops hfe with ⟨s', op, hop, hx⟩
    rcases step_rejected_src thr s' op hx with ⟨m, e, rfl, hid, herr, hfe', -⟩
    exact ⟨m, e, hop, hid, herr, hfe'⟩

/-- Witness for C1 at concrete traces: a call resolved by a result line with
its own id, and a call rejected by an error line with its own id. -/
theorem request_settles_once_from_own_message_witness :
    settleCount (uuid 0)
      (run thrNever Sidecar.init
        [Op.call "transcribe" Json.null (some 0) true none,
         Op.line (RawLine.parsed ⟨none, some (uuid 0), some (Json.str "hello"), none⟩)]).2 ≤ 1 ∧
    (∃ m, Op.line (RawLine.parsed m) ∈
        [Op.call "transcribe" Json.null (some 0) true none,
         Op.line (RawLine.parsed ⟨none, some (uuid 0), some (Json.str "hello"), none⟩)] ∧
      m.id = some (uuid 0) ∧ m.result = some (Json.str "hello")) ∧
    (∃ m e, Op.line (RawLine.parsed m) ∈
        [Op.call "transcribe" Json.null none true none,
         Op.line (RawLine.parsed ⟨none, some (uuid 0), none, some "401 Unauthorized"⟩)] ∧
      m.id = some (uuid 0) ∧ m.error = some e ∧
      createFriendlyError "401 Unauthorized" = createFriendlyError e) :=
  ⟨(request_settles_once_from_own_message thrNever
      [Op.call "transcribe" Json.null (some 0) true none,
       Op.line (RawLine.parsed ⟨none, some (uuid 0), some (Json.str "hello"), none⟩)]
      (uuid 0)).1,
   (request_settles_once_from_own_message thrNever
      [Op.call "transcribe" Json.null (some 0) true none,
       Op.line (RawLine.parsed ⟨none, some (uuid 0), some (Json.str "hello"), none⟩)]
      (uuid 0)).2.1 (Json.str "hello") (by decide),
   (request_settles_once_from_own_message thrNever
      [Op.call "transcribe" Json.null none true none,
       Op.line (RawLine.parsed ⟨none, some (uuid 0), none, some "401 Unauthorized"⟩)]
      (uuid 0)).2.2 (createFriendlyError "401 Unauthorized") (by decide)⟩

/-- C2: in every trace from a fresh bridge, once a settlement of request `i`
occurs, no progress-callback invocation for `i` follows it (`sepOk` checks,
at every position, that a settlement is followed by a progress-free
remainder); in particular a progress-shaped line arriving after settlement —
its subscription having been removed — invokes no callback. -/
theorem progress_only_before_settlement (thr : Nat → Msg → Bool)
    (ops : List Op) (i : String) :
    sepOk i (run thr Sidecar.init ops).2 = true :=
  run_sepOk thr Sidecar.init ops i (by intro j hj; cases hj)

theorem call_eq_of_success {s : Sidecar} (hok : s.writeLock = WriteChain.ok)
    (me : String) (pa : Json) (o : Option Nat) :
    s.call me pa o true none =
      ({ s with nextId := s.nextId + 1,
                pending := uuid s.nextId :: s.pending,
                progressCallbacks := (match o with
                  | some cb => (uuid s.nextId, cb) :: s.progressCallbacks
                  | none => s.progressCallbacks),
                wire := s.wire ++ [encodeRequest (uuid s.nextId) me pa] },
       [Effect.requested (uuid s.nextId)]) := by
  cases o <;> simp [Sidecar.call, Sidecar.writeWithLock, hok]

theorem call_eq_of_unavail {s : Sidecar} (hok : s.writeLock = WriteChain.ok)
    (me : String) (pa : Json) (o : Option Nat) (we : Option Nat) :
    s.call me pa o false we =
      ({ s with nextId := s.nextId + 1,
                pending := (uuid s.nextId :: s.pending).filter (fun x => x != uuid s.nextId),
                progressCallbacks := ((match o with
                  | some cb => (uuid s.nextId, cb) :: s.progressCallbacks
                  | none => s.progressCallbacks)).filter (fun p => p.1 != uuid s.nextId),
                writeLock := WriteChain.poisoned WriteErr.procUnavailable },
       [Effect.requested (uuid s.nextId),
        Effect.writeRejected (uuid s.nextId) WriteErr.procUnavailable]) := by
  cases o <;> cases we <;> simp [Sidecar.call, Sidecar.writeWithLock, hok]

theorem call_eq_of_streamError {s : Sidecar} (hok : s.writeLock = WriteChain.ok)
    (me : String) (pa : Json) (o : Option Nat) (n : Nat) :
    s.call me pa o true (some n) =
      ({ s with nextId := s.nextId + 1,
                pending := (uuid s.nextId :: s.pending).filter (fun x => x != uuid s.nextId),
                progressCallbacks := ((match o with
                  | some cb => (uuid s.nextId, cb) :: s.progressCallbacks
                  | none => s.progressCallbacks)).filter (fun p => p.1 != uuid s.nextId),
                writeLock := WriteChain.poisoned (WriteErr.streamError n) },
       [Effect.requested (uuid s.nextId),
        Effect.writeRejected (uuid s.nextId) (WriteErr.streamError n)]) := by
  cases o <;> simp [Sidecar.call, Sidecar.writeWithLock, hok]

theorem call_eq_of_poisoned {s : Sidecar} {e : WriteErr}
    (hp : s.writeLock = WriteChain.poisoned e)
    (me : String) (pa : Json) (o : Option Nat) (av : Bool) (we : Option Nat) :
    s.call me pa o av we =
      ({ s with nextId := s.nextId + 1,
                pending := (uuid s.nextId :: s.pending).filter (fun x => x != uuid s.nextId),
                progressCallbacks := ((match o with
                  | some cb => (uuid s.nextId, cb) :: s.progressCallbacks
                  | none => s.progressCallbacks)).filter (fun p => p.1 != uuid s.nextId),
                writeLock := WriteChain.poisoned e },
       [Effect.requested (uuid s.nextId),
        Effect.writeRejected (uuid s.nextId) e]) := by
  cases o <;> simp [Sidecar.call, Sidecar.writeWithLock, hp]

/-- C3 (amended): a write failure rejects the request that triggered it and
leaves the chain permanently holding that rejection; every later call's
write is then skipped (the wire is unchanged) and the later request is
rejected with the original write error, not its own. -/
theorem write_failure_poisons_chain (s : Sidecar) (me me' : String) (pa pa' : Json)
    (o o' : Option Nat) (n : Nat) (e : WriteErr) (av' : Bool) (we' : Option Nat) :
    (s.writeLock = WriteChain.ok →
      (s.call me pa o true (some n)).1.writeLock =
          WriteChain.poisoned (WriteErr.streamError n) ∧
      (s.call me pa o true (some n)).2 =
        [Effect.requested (uuid s.nextId),
         Effect.writeRejected (uuid s.nextId) (WriteErr.streamError n)]) ∧
    (s.writeLock = WriteChain.poisoned e →
      (s.call me' pa' o' av' we').1.wire = s.wire ∧
      (s.call me' pa' o' av' we').1.writeLock = WriteChain.poisoned e ∧
      (s.call me' pa' o' av' we').2 =
        [Effect.requested (uuid s.nextId),
         Effect.writeRejected (uuid s.nextId) e]) := by
  constructor
  · intro hok
    rw [call_eq_of_streamError hok]
    exact ⟨rfl, rfl⟩
  · intro hp
    rw [call_eq_of_poisoned hp]
    exact ⟨rfl, rfl, rfl⟩

/-- Witness for the amended C3: a failing first write poisons the chain, and
the second call against the poisoned chain skips its write and is rejected
with the first error. -/
theorem write_failure_poisons_chain_witness :
    ((Sidecar.init.call "a" Json.null none true (some 7)).1.writeLock =
        WriteChain.poisoned (WriteErr.streamError 7) ∧
     (Sidecar.init.call "a" Json.null none true (some 7)).2 =
        [Effect.requested (uuid 0),
         Effect.writeRejected (uuid 0) (WriteErr.streamError 7)]) ∧
    (((Sidecar.init.call "a" Json.null none true (some 7)).1.call "b" Json.null
        none true none).1.wire =
       (Sidecar.init.call "a" Json.null none true (some 7)).1.wire ∧
     ((Sidecar.init.call "a" Json.null none true (some 7)).1.call "b" Json.null
        none true none).1.writeLock = WriteChain.poisoned (WriteErr.streamError 7) ∧
     ((Sidecar.init.call "a" Json.null none true (some 7)).1.call "b" Json.null
        none true none).2 =
       [Effect.requested (uuid 1),
        Effect.writeRejected (uuid 1) (WriteErr.streamError 7)]) :=
  ⟨(write_failure_poisons_chain Sidecar.init "a" "b" Json.null Json.null
      none none 7 (WriteErr.streamError 7) true none).1 rfl,
   (write_failure_poisons_chain
      (Sidecar.init.call "a" Json.null none true (some 7)).1 "b" "b"
      Json.null Json.null none none 7 (WriteErr.streamError 7) true none).2
      (by decide)⟩

/-- C3 (counterexample to the claim as stated): after the first call's write
fails with stream error 7, a second call whose own write environment would
have succeeded has its write skipped (the wire stays empty) and is rejected
with the first call's error — it is automatically rejected as a consequence
of the earlier failure. -/
theorem later_write_not_attempted_counterexample :
    (run thrNever Sidecar.init
      [Op.call "a" Json.null none true (some 7),
       Op.call "b" Json.null none true none]).2 =
      [Effect.requested (uuid 0), Effect.writeRejected (uuid 0) (WriteErr.streamError 7),
       Effect.requested (uuid 1), Effect.writeRejected (uuid 1) (WriteErr.streamError 7)] ∧
    (run thrNever Sidecar.init
      [Op.call "a" Json.null none true (some 7),
       Op.call "b" Json.null none true none]).1.wire = [] := by
  decide

/-- C6: whichever way the write carrying a request fails — process not
available, stream error, or a chain already holding a rejection — the
request is rejected with that write error and both its correlation-table
entry and its progress-subscription entry are removed. -/
theorem write_failure_rejects_and_cleans (s : Sidecar) (me : String) (pa : Json)
    (o : Option Nat) (n : Nat) (e : WriteErr) (av : Bool) (we : Option Nat) :
    (s.writeLock = WriteChain.ok →
      (s.call me pa o false we).2 =
        [Effect.requested (uuid s.nextId),
         Effect.writeRejected (uuid s.nextId) WriteErr.procUnavailable] ∧
      uuid s.nextId ∉ (s.call me pa o false we).1.pending ∧
      lookupCb (s.call me pa o false we).1.progressCallbacks (uuid s.nextId) = none) ∧
    (s.writeLock = WriteChain.ok →
      (s.call me pa o true (some n)).2 =
        [Effect.requested (uuid s.nextId),
         Effect.writeRejected (uuid s.nextId) (WriteErr.streamError n)] ∧
      uuid s.nextId ∉ (s.call me pa o true (some n)).1.pending ∧
      lookupCb (s.call me pa o true (some n)).1.progressCallbacks (uuid s.nextId) = none) ∧
    (s.writeLock = WriteChain.poisoned e →
      (s.call me pa o av we).2 =
        [Effect.requested (uuid s.nextId),
         Effect.writeRejected (uuid s.nextId) e] ∧
      uuid s.nextId ∉ (s.call me pa o av we).1.pending ∧
      lookupCb (s.call me pa o av we).1.progressCallbacks (uuid s.nextId) = none) := by
  refine ⟨fun hok => ?_, fun hok => ?_, fun hp => ?_⟩
  · rw [call_eq_of_unavail hok]
    exact ⟨rfl, fun hmem => absurd rfl (mem_filter_ne.mp hmem).2,
           lookupCb_filter_self _ _⟩
  · rw [call_eq_of_streamError hok]
    exact ⟨rfl, fun hmem => absurd rfl (mem_filter_ne.mp hmem).2,
           lookupCb_filter_self _ _⟩
  · rw [call_eq_of_poisoned hp]
    exact ⟨rfl, fun hmem => absurd rfl (mem_filter_ne.mp hmem).2,
           lookupCb_filter_self _ _⟩

/-- Witness for C6 at a fresh bridge with a registered progress callback:
the write fails with a stream error; the request is rejected and both
tables are left without its identifier. -/
theorem write_failure_rejects_and_cleans_witness :
    (Sidecar.init.call "transcribe" Json.null (some 0) true (some 3)).2 =
      [Effect.requested (uuid 0),
       Effect.writeRejected (uuid 0) (WriteErr.streamError 3)] ∧
    uuid 0 ∉ (Sidecar.init.call "transcribe" Json.null (some 0) true (some 3)).1.pending ∧
    lookupCb (Sidecar.init.call "transcribe" Json.null (some 0) true (some 3)).1.progressCallbacks
      (uuid 0) = none :=
  (write_failure_rejects_and_cleans Sidecar.init "transcribe" Json.null
    (some 0) 3 WriteErr.procUnavailable true none).2.1 rfl

theorem uuid_injective : Function.Injective uuid := fun _ _ h => uuid_inj h

/-- C7: every call puts exactly one newline-terminated line on the single
write chain: two successive calls append their two complete lines to the
wire in issue order (each wire element is atomic), and over any trace every
element the wire ever receives is one complete line. -/
theorem calls_write_fifo_lines (thr : Nat → Msg → Bool) (ops : List Op)
    (s : Sidecar) (me1 me2 : String) (pa1 pa2 : Json) (o1 o2 : Option Nat)
    (hok : s.writeLock = WriteChain.ok) :
    ((s.call me1 pa1 o1 true none).1.call me2 pa2 o2 true none).1.wire =
      s.wire ++ [encodeRequest (uuid s.nextId) me1 pa1,
                 encodeRequest (uuid (s.nextId + 1)) me2 pa2] ∧
    isOneLine (encodeRequest (uuid s.nextId) me1 pa1) = true ∧
    (run thr Sidecar.init ops).1.wire.all isOneLine = true := by
  have h1 := call_eq_of_success hok me1 pa1 o1
  have hok2 : (s.call me1 pa1 o1 true none).1.writeLock = WriteChain.ok := by
    rw [h1]
    exact hok
  have h2 := call_eq_of_success hok2 me2 pa2 o2
  refine ⟨?_, encodeRequest_isOneLine _ _ _, ?_⟩
  · calc ((s.call me1 pa1 o1 true none).1.call me2 pa2 o2 true none).1.wire
        = (s.call me1 pa1 o1 true none).1.wire ++
            [encodeRequest (uuid (s.call me1 pa1 o1 true none).1.nextId) me2 pa2] := by
          rw [h2]
      _ = (s.wire ++ [encodeRequest (uuid s.nextId) me1 pa1]) ++
            [encodeRequest (uuid (s.nextId + 1)) me2 pa2] := by rw [h1]
      _ = s.wire ++ [encodeRequest (uuid s.nextId) me1 pa1,
            encodeRequest (uuid (s.nextId + 1)) me2 pa2] := by
          rw [List.append_assoc]
          rfl
  · rw [List.all_eq_true]
    intro w hw
    exact run_wire_lines thr Sidecar.init ops (fun w' hw' => absurd hw' (List.not_mem_nil w')) w hw

/-- Witness for C7 from a fresh bridge: the two calls' lines in order. -/
theorem calls_write_fifo_lines_witness :
    ((Sidecar.init.call "a" Json.null none true none).1.call "b" Json.null
        none true none).1.wire =
      ([] : List String) ++ [encodeRequest (uuid 0) "a" Json.null,
                 encodeRequest (uuid (0 + 1)) "b" Json.null] ∧
    isOneLine (encodeRequest (uuid 0) "a" Json.null) = true ∧
    (run thrNever Sidecar.init
      [Op.call "t" Json.null none true none]).1.wire.all isOneLine = true :=
  calls_write_fifo_lines thrNever [Op.call "t" Json.null none true none]
    Sidecar.init "a" "b" Json.null Json.null none none rfl

/-- C5: dispatching an error-shaped message `\x7bid, error\x7d` whose id is
pending rejects that request with the classified error and removes both the
correlation-table entry and the progress-subscription entry for the id. -/
theorem error_message_rejects_and_cleans (thr : Nat → Msg → Bool) (s : Sidecar)
    (i e : String) (hi : i ≠ "") (he : e ≠ "") (hp : i ∈ s.pending) :
    dispatchMsg thr s ⟨none, some i, none, some e⟩ =
      ({ s with pending := s.pending.filter (fun x => x != i),
                progressCallbacks := s.progressCallbacks.filter (fun p => p.1 != i) },
       [Effect.rejectedWith i (createFriendlyError e)]) ∧
    i ∉ (dispatchMsg thr s ⟨none, some i, none, some e⟩).1.pending ∧
    lookupCb (dispatchMsg thr s ⟨none, some i, none, some e⟩).1.progressCallbacks i = none := by
  have h1 : ¬((⟨none, some i, none, some e⟩ : Msg).event == some "progress" &&
      truthy (⟨none, some i, none, some e⟩ : Msg).id) = true := by
    simp
  have h2 : ¬((⟨none, some i, none, some e⟩ : Msg).result.isSome &&
      truthy (⟨none, some i, none, some e⟩ : Msg).id) = true := by
    simp
  have h3 : (truthy (⟨none, some i, none, some e⟩ : Msg).error &&
      truthy (⟨none, some i, none, some e⟩ : Msg).id) = true := by
    simp [truthy, hi, he]
  have hd : dispatchMsg thr s ⟨none, some i, none, some e⟩ =
      ({ s with pending := s.pending.filter (fun x => x != i),
                progressCallbacks := s.progressCallbacks.filter (fun p => p.1 != i) },
       [Effect.rejectedWith i (createFriendlyError e)]) := by
    unfold dispatchMsg
    rw [if_neg h1, if_neg h2, if_pos h3]
    dsimp only
    rw [if_pos (contains_iff.mpr hp)]
  refine ⟨hd, ?_, ?_⟩
  · rw [hd]
    exact fun hmem => absurd rfl (mem_filter_ne.mp hmem).2
  · rw [hd]
    exact lookupCb_filter_self _ _

/-- Witness for C5: a pending request with a subscription, rejected by an
error line carrying its own id. -/
theorem error_message_rejects_and_cleans_witness :
    dispatchMsg thrNever (Sidecar.init.call "t" Json.null (some 0) true none).1
      ⟨none, some (uuid 0), none, some "401 Unauthorized"⟩ =
      ({ (Sidecar.init.call "t" Json.null (some 0) true none).1 with
         pending := (Sidecar.init.call "t" Json.null (some 0) true none).1.pending.filter
           (fun x => x != uuid 0),
         progressCallbacks := (Sidecar.init.call "t" Json.null (some 0) true none).1.progressCallbacks.filter
           (fun p => p.1 != uuid 0) },
       [Effect.rejectedWith (uuid 0) (createFriendlyError "401 Unauthorized")]) ∧
    uuid 0 ∉ (dispatchMsg thrNever (Sidecar.init.call "t" Json.null (some 0) true none).1
      ⟨none, some (uuid 0), none, some "401 Unauthorized"⟩).1.pending ∧
    lookupCb (dispatchMsg thrNever (Sidecar.init.call "t" Json.null (some 0) true none).1
      ⟨none, some (uuid 0), none, some "401 Unauthorized"⟩).1.progressCallbacks (uuid 0) = none :=
  error_message_rejects_and_cleans thrNever
    (Sidecar.init.call "t" Json.null (some 0) true none).1
    (uuid 0) "401 Unauthorized" (by decide) (by decide) (by decide)

/-- C8: a line `JSON.parse` rejects is logged and dropped: the state (both
tables, the chain, the wire) is unchanged, and a trace with the invalid line
inserted produces exactly the same final state and the same effects apart
from the logged parse failure. -/
theorem invalid_line_is_noop (thr : Nat → Msg → Bool) (s : Sidecar) (ops : List Op) :
    dispatchLine thr s RawLine.invalid = (s, [Effect.parseFailure]) ∧
    (run thr s (Op.line RawLine.invalid :: ops)).1 = (run thr s ops).1 ∧
    (run thr s (Op.line RawLine.invalid :: ops)).2 =
      Effect.parseFailure :: (run thr s ops).2 :=
  ⟨rfl, rfl, rfl⟩

/-- C9: after any trace from a fresh bridge, every progress-subscription key
is a correlation-table key; the identifiers drawn by the trace's calls are
pairwise distinct (never reused); and every identifier still in the
correlation table was drawn by exactly one call. -/
theorem tables_invariant (thr : Nat → Msg → Bool) (ops : List Op) :
    ((run thr Sidecar.init ops).1.progressCallbacks.all
       (fun p => (run thr Sidecar.init ops).1.pending.contains p.1)) = true ∧
    (reqIds (run thr Sidecar.init ops).2).Nodup ∧
    ((run thr Sidecar.init ops).1.pending.all
       (fun i => (reqIds (run thr Sidecar.init ops).2).count i == 1)) = true := by
  obtain ⟨hr, hn⟩ := run_reqIds thr Sidecar.init ops
  have hnd : (reqIds (run thr Sidecar.init ops).2).Nodup := by
    rw [hr]
    exact (List.nodup_range' _ _).map uuid_injective
  refine ⟨?_, hnd, ?_⟩
  · rw [List.all_eq_true]
    intro p hp
    exact contains_iff.mpr
      (run_cbsSub thr Sidecar.init ops (fun q hq => absurd hq (List.not_mem_nil q)) p hp)
  · rw [List.all_eq_true]
    intro i hi
    have hg := run_pendingGen thr Sidecar.init ops
      (fun j hj => absurd hj (List.not_mem_nil j)) i hi
    rcases hg with ⟨k, hk, rfl⟩
    have h0 : Sidecar.init.nextId = 0 := rfl
    have hk' : k < numCalls ops := by
      rw [hn, h0] at hk
      omega
    have hmem : uuid k ∈ reqIds (run thr Sidecar.init ops).2 := by
      rw [hr]
      refine List.mem_map.mpr ⟨k, ?_, rfl⟩
      simp only [List.mem_range'_1]
      exact ⟨Nat.zero_le k, by rw [h0]; omega⟩
    have hcount := List.count_eq_one_of_mem hnd hmem
    simp [hcount]

/-- C10: when the registered progress callback raises during dispatch of a
progress-shaped message, the exception is caught by the per-line handler:
the state (both tables) is unchanged, the message settles nothing, and
subsequent lines are processed exactly as without this line. -/
theorem throwing_callback_is_contained (thr : Nat → Msg → Bool) (s : Sidecar)
    (m : Msg) (i : String) (cb : Nat) (ops : List Op)
    (hev : m.event = some "progress") (hid : m.id = some i) (hi : i ≠ "")
    (hcb : lookupCb s.progressCallbacks i = some cb) (hthr : thr cb m = true) :
    dispatchMsg thr s m = (s, [Effect.progressInvoked i m, Effect.handlerFault i]) ∧
    (run thr s (Op.line (RawLine.parsed m) :: ops)).1 = (run thr s ops).1 ∧
    (run thr s (Op.line (RawLine.parsed m) :: ops)).2 =
      Effect.progressInvoked i m :: Effect.handlerFault i :: (run thr s ops).2 := by
  have h1 : (m.event == some "progress" && truthy m.id) = true := by
    simp [hev, hid, truthy, hi]
  have hd : dispatchMsg thr s m =
      (s, [Effect.progressInvoked i m, Effect.handlerFault i]) := by
    unfold dispatchMsg
    rw [if_pos h1, hid]
    dsimp only
    rw [hcb]
    dsimp only
    rw [if_pos hthr]
  have hst : (step thr s (Op.line (RawLine.parsed m))).1 = s := by
    show (dispatchMsg thr s m).1 = s
    rw [hd]
  refine ⟨hd, ?_, ?_⟩
  · show (run thr (step thr s (Op.line (RawLine.parsed m))).1 ops).1 = (run thr s ops).1
    rw [hst]
  · show (dispatchMsg thr s m).2 ++
        (run thr (step thr s (Op.line (RawLine.parsed m))).1 ops).2 =
      Effect.progressInvoked i m :: Effect.handlerFault i :: (run thr s ops).2
    rw [hd, hst]
    rfl

/-- Witness for C10: a raising callback on a live subscription, followed by
the request's normal resolution. -/
theorem throwing_callback_is_contained_witness :
    dispatchMsg thrAlways (Sidecar.init.call "t" Json.null (some 0) true none).1
      ⟨some "progress", some (uuid 0), none, none⟩ =
      ((Sidecar.init.call "t" Json.null (some 0) true none).1,
       [Effect.progressInvoked (uuid 0) ⟨some "progress", some (uuid 0), none, none⟩,
        Effect.handlerFault (uuid 0)]) ∧
    (run thrAlways (Sidecar.init.call "t" Json.null (some 0) true none).1
      (Op.line (RawLine.parsed ⟨some "progress", some (uuid 0), none, none⟩) ::
       [Op.line (RawLine.parsed ⟨none, some (uuid 0), some Json.null, none⟩)])).1 =
    (run thrAlways (Sidecar.init.call "t" Json.null (some 0) true none).1
      [Op.line (RawLine.parsed ⟨none, some (uuid 0), some Json.null, none⟩)]).1 ∧
    (run thrAlways (Sidecar.init.call "t" Json.null (some 0) true none).1
      (Op.line (RawLine.parsed ⟨some "progress", some (uuid 0), none, none⟩) ::
       [Op.line (RawLine.parsed ⟨none, some (uuid 0), some Json.null, none⟩)])).2 =
      Effect.progressInvoked (uuid 0) ⟨some "progress", some (uuid 0), none, none⟩ ::
      Effect.handlerFault (uuid 0) ::
      (run thrAlways (Sidecar.init.call "t" Json.null (some 0) true none).1
        [Op.line (RawLine.parsed ⟨none, some (uuid 0), some Json.null, none⟩)]).2 :=
  throwing_callback_is_contained thrAlways
    (Sidecar.init.call "t" Json.null (some 0) true none).1
    ⟨some "progress", some (uuid 0), none, none⟩ (uuid 0) 0
    [Op.line (RawLine.parsed ⟨none, some (uuid 0), some Json.null, none⟩)]
    rfl rfl (by decide) (by decide) rfl
